import Mathlib

/-!
iostat v2.2: counter collection, registry and rate computation

A shallow embedding of `iostat.c`.

Conventions of the embedding.

* C `unsigned int` and `unsigned long long` values are natural numbers; every
  arithmetic operation the source performs in one of these types is reduced
  modulo `2^32` resp. `2^64` explicitly.
* C `double` values are rationals. The arithmetic on them is exact, except in
  the definitions named `_div` and `_fp`, which take the division (and the
  conversion from integers) as parameters, for the statements that depend on
  rounding or on a quotient by zero.
* The global tables `partition[MAX_PARTITIONS]` / `n_partitions` are the list of
  the first `n_partitions` entries; `new_blkio` and `old_blkio` are functions of
  the index.
* `sscanf` belongs to the C library: a line of an input stream is represented
  by the result of scanning it, the number of converted items together with the
  values left in the target variables.
-/

namespace Iostat

/-! ## Machine arithmetic -/

/-- Subtraction of two `unsigned int` values. -/
def sub32 (a b : Nat) : Nat := (a % 2 ^ 32 + (2 ^ 32 - b % 2 ^ 32)) % 2 ^ 32

/-- Addition of two `unsigned int` values. -/
def add32 (a b : Nat) : Nat := (a + b) % 2 ^ 32

/-- Subtraction of two `unsigned long long` values. -/
def sub64 (a b : Nat) : Nat := (a % 2 ^ 64 + (2 ^ 64 - b % 2 ^ 64)) % 2 ^ 64

/-- Addition of two `unsigned long long` values. -/
def add64 (a b : Nat) : Nat := (a + b) % 2 ^ 64

/-! ## Data model -/

/-- The constant `MAX_PARTITIONS`. -/
def MAX_PARTITIONS : Nat := 64

/-- The record `struct part_info`. -/
structure part_info where
  major : Nat
  minor : Nat
  name : String
deriving DecidableEq

/-- The record `struct blkio_info`; `rd_sectors` and `wr_sectors` are
`unsigned long long`, the other fields `unsigned int`. -/
structure blkio_info where
  rd_ios : Nat
  rd_merges : Nat
  rd_sectors : Nat
  rd_ticks : Nat
  wr_ios : Nat
  wr_merges : Nat
  wr_sectors : Nat
  wr_ticks : Nat
  ticks : Nat
  aveq : Nat
deriving DecidableEq

/-- The record `struct cpu_info`, four `unsigned long long` counters. -/
structure cpu_info where
  user : Nat
  system : Nat
  idle : Nat
  iowait : Nat
deriving DecidableEq

/-- The option flags set by `main` from the command line. -/
structure flags where
  print_cpu : Bool
  print_disk_extended : Bool
  print_disk_util : Bool
  print_partition : Bool
  print_device : Bool
deriving DecidableEq

/-- The flag values before any option is read. -/
def default_flags : flags :=
  { print_cpu := false, print_disk_extended := false, print_disk_util := false,
    print_partition := false, print_device := true }

/-! ## `print_cpu_stats` -/

/-- The local `cpu` of `print_cpu_stats`: the four counter differences. -/
def cpu_delta (new_cpu old_cpu : cpu_info) : cpu_info :=
  { user := sub64 new_cpu.user old_cpu.user,
    system := sub64 new_cpu.system old_cpu.system,
    idle := sub64 new_cpu.idle old_cpu.idle,
    iowait := sub64 new_cpu.iowait old_cpu.iowait }

/-- The local `total` of `print_cpu_stats`. -/
def cpu_total (cpu : cpu_info) : ℚ :=
  ((add64 (add64 (add64 cpu.user cpu.system) cpu.idle) cpu.iowait : Nat) : ℚ) / 100

/-- The four values `print_cpu_stats` divides out, as a record in the order
user, system, idle, iowait of `struct cpu_info`. -/
structure cpu_percent where
  user : ℚ
  system : ℚ
  idle : ℚ
  iowait : ℚ
deriving DecidableEq

/-- The percentages computed by `print_cpu_stats`, in exact arithmetic;
`cpu_percentages_fp` is the same computation for any arithmetic of doubles. -/
def cpu_percentages (new_cpu old_cpu : cpu_info) : cpu_percent :=
  let cpu := cpu_delta new_cpu old_cpu
  let total := cpu_total cpu
  { user := (cpu.user : ℚ) / total,
    system := (cpu.system : ℚ) / total,
    idle := (cpu.idle : ℚ) / total,
    iowait := (cpu.iowait : ℚ) / total }

/-- The values printed by `print_cpu_stats`, in print order; the iowait column
exists for `kernel == 6` only. -/
def print_cpu_stats (kernel : Nat) (new_cpu old_cpu : cpu_info) : List ℚ :=
  let pc := cpu_percentages new_cpu old_cpu
  [pc.user, pc.system] ++ (if kernel = 6 then [pc.iowait] else []) ++ [pc.idle]

/-! ## `print_partition_stats` -/

/-- The elapsed time `deltams` of `print_partition_stats`; `HZ` is the tick rate
of the platform. -/
def deltams (ncpu HZ : Nat) (new_cpu old_cpu : cpu_info) : ℚ :=
  1000 *
    ((sub64
      (add64 (add64 (add64 new_cpu.user new_cpu.system) new_cpu.idle) new_cpu.iowait)
      (add64 (add64 (add64 old_cpu.user old_cpu.system) old_cpu.idle) old_cpu.iowait)
      : Nat) : ℚ) / (ncpu : ℚ) / (HZ : ℚ)

/-- The macro `PER_SEC`. -/
def PER_SEC (deltams x : ℚ) : ℚ := 1000 * x / deltams

/-- The local `blkio` of the loop body: field by field difference of the
current and the previous record. -/
def blkio_delta (n o : blkio_info) : blkio_info :=
  { rd_ios := sub32 n.rd_ios o.rd_ios,
    rd_merges := sub32 n.rd_merges o.rd_merges,
    rd_sectors := sub64 n.rd_sectors o.rd_sectors,
    rd_ticks := sub32 n.rd_ticks o.rd_ticks,
    wr_ios := sub32 n.wr_ios o.wr_ios,
    wr_merges := sub32 n.wr_merges o.wr_merges,
    wr_sectors := sub64 n.wr_sectors o.wr_sectors,
    wr_ticks := sub32 n.wr_ticks o.wr_ticks,
    ticks := sub32 n.ticks o.ticks,
    aveq := sub32 n.aveq o.aveq }

/-- The locals of one iteration of the loop of `print_partition_stats`. -/
structure part_stats where
  blkio : blkio_info
  n_ios : ℚ
  n_ticks : ℚ
  n_kbytes : ℚ
  busy : ℚ
  svc_t : ℚ
  wait : ℚ
  size : ℚ
  queue : ℚ
deriving DecidableEq

/-- One iteration of the loop of `print_partition_stats`, up to the output, with
the division of doubles as a parameter `dv`: a quotient by zero is not a
rational number, and a statement that holds for every `dv` does not depend on
what such a quotient is taken to be. -/
def partition_stats_div (dv : ℚ → ℚ → ℚ) (deltams : ℚ) (n o : blkio_info) : part_stats :=
  let blkio := blkio_delta n o
  let n_ios : ℚ := ((add32 blkio.rd_ios blkio.wr_ios : Nat) : ℚ)
  let n_ticks : ℚ := ((add32 blkio.rd_ticks blkio.wr_ticks : Nat) : ℚ)
  let n_kbytes : ℚ := dv ((add64 blkio.rd_sectors blkio.wr_sectors : Nat) : ℚ) 2
  let queue : ℚ := dv (blkio.aveq : ℚ) deltams
  let size : ℚ := if n_ios ≠ 0 then dv n_kbytes n_ios else 0
  let wait : ℚ := if n_ios ≠ 0 then dv n_ticks n_ios else 0
  let svc_t : ℚ := if n_ios ≠ 0 then dv (blkio.ticks : ℚ) n_ios else 0
  let busy : ℚ := dv (100 * (blkio.ticks : ℚ)) deltams
  let busy : ℚ := if busy > 100 then 100 else busy
  { blkio := blkio, n_ios := n_ios, n_ticks := n_ticks, n_kbytes := n_kbytes,
    busy := busy, svc_t := svc_t, wait := wait, size := size, queue := queue }

/-- One iteration of the loop of `print_partition_stats`, up to the output, in
exact arithmetic. -/
def partition_stats (deltams : ℚ) (n o : blkio_info) : part_stats :=
  partition_stats_div (fun x y => x / y) deltams n o

/-- The numeric arguments of the `printf` of one iteration, by output mode. -/
def partition_columns (f : flags) (deltams : ℚ) (s : part_stats) : List ℚ :=
  if f.print_disk_extended then
    [PER_SEC deltams s.blkio.rd_merges, PER_SEC deltams s.blkio.wr_merges,
     PER_SEC deltams s.blkio.rd_ios, PER_SEC deltams s.blkio.wr_ios,
     PER_SEC deltams s.blkio.rd_sectors / 2, PER_SEC deltams s.blkio.wr_sectors / 2,
     s.size, s.queue, s.wait, s.svc_t, s.busy]
  else if f.print_disk_util then
    [PER_SEC deltams s.blkio.rd_ios, PER_SEC deltams s.blkio.wr_ios, s.busy]
  else
    [PER_SEC deltams s.n_kbytes, PER_SEC deltams s.n_ios, s.svc_t]

/-! ## `get_kernel_stats` -/

/-- The outcome of the `sscanf` of `get_kernel_stats` on one line of the I/O
file: the number of converted items, and the contents of the locals `curr` and
`blkio` after the call. A field the scan did not reach holds whatever the
uninitialised local held. -/
structure stat_scan where
  items : Int
  major : Nat
  minor : Nat
  blkio : blkio_info
deriving DecidableEq

/-- The outcome of the `sscanf` on one line of the CPU file: the line itself,
the number of converted items and the scanned values. A value the scan did not
reach stands for the content of an uninitialised local (`nice`, `irq`,
`softirq`) and is not used for a field of `new_cpu`. -/
structure cpu_scan where
  buffer : String
  items : Int
  user : Nat
  nice : Nat
  system : Nat
  idle : Nat
  iowait : Nat
  irq : Nat
  softirq : Nat
deriving DecidableEq

/-- The body of `if (items == 6)`: the record of a 2.6 partition line. -/
def remap_partition (blkio : blkio_info) : blkio_info :=
  let b := { blkio with rd_sectors := blkio.rd_merges }
  let b := { b with wr_sectors := b.rd_ticks }
  let b := { b with rd_ios := 0 }
  let b := { b with rd_merges := 0 }
  let b := { b with rd_ticks := 0 }
  let b := { b with wr_ios := 0 }
  let b := { b with wr_merges := 0 }
  let b := { b with wr_ticks := 0 }
  let b := { b with ticks := 0 }
  { b with aveq := 0 }

/-- The loop "Locate partition in data table": starting at index `p`, the first
entry with the given major and minor numbers receives `blkio`. -/
def locate_store (major minor : Nat) (blkio : blkio_info) :
    List part_info → Nat → (Nat → blkio_info) → (Nat → blkio_info)
  | [], _, new_blkio => new_blkio
  | q :: rest, p, new_blkio =>
    if q.major = major ∧ q.minor = minor then
      Function.update new_blkio p blkio
    else
      locate_store major minor blkio rest (p + 1) new_blkio

/-- One iteration of the first loop of `get_kernel_stats`. -/
def get_kernel_stats_line (partition : List part_info) (new_blkio : Nat → blkio_info)
    (l : stat_scan) : Nat → blkio_info :=
  let blkio := if l.items = 6 then remap_partition l.blkio else l.blkio
  let items : Int := if l.items = 6 then 12 else l.items
  if items = 12 then
    locate_store l.major l.minor blkio partition 0 new_blkio
  else
    new_blkio

/-- One iteration of the second loop of `get_kernel_stats`. -/
def get_kernel_stats_cpu_line (new_cpu : cpu_info) (l : cpu_scan) : cpu_info :=
  if l.buffer.data.take 4 = ['c', 'p', 'u', ' '] then
    let c : cpu_info :=
      { user := if 1 ≤ l.items then l.user else new_cpu.user,
        system := if 3 ≤ l.items then l.system else new_cpu.system,
        idle := if 4 ≤ l.items then l.idle else new_cpu.idle,
        iowait := if 5 ≤ l.items then l.iowait else new_cpu.iowait }
    let c := { c with user := add64 c.user l.nice }
    let c := if l.items = 4 then { c with iowait := 0 } else c
    if l.items = 7 then { c with system := add64 c.system (add64 l.irq l.softirq) } else c
  else
    new_cpu

/-- The global tables of the program. -/
structure state where
  partition : List part_info
  new_blkio : Nat → blkio_info
  old_blkio : Nat → blkio_info
  new_cpu : cpu_info
  old_cpu : cpu_info

/-- The function `get_kernel_stats`: `iolines` and `cpulines` are the scanned
lines of the two files, read from the start. -/
def get_kernel_stats (kernel : Nat) (iolines : List stat_scan) (cpulines : List cpu_scan)
    (st : state) : Except String state :=
  if kernel = 4 ∨ kernel = 6 then
    .ok { st with
          new_blkio := iolines.foldl (get_kernel_stats_line st.partition) st.new_blkio,
          new_cpu := cpulines.foldl get_kernel_stats_cpu_line st.new_cpu }
  else
    .error "logic error in get_kernel_stats()"

/-! ## `printable` and `initialize` -/

/-- The major numbers named by the macros `IDE_DISK_MAJOR` and
`SCSI_DISK_MAJOR`; they are defined by the system header `linux/major.h` and
enter as parameters. -/
structure major_numbers where
  IDE0_MAJOR : Nat
  IDE1_MAJOR : Nat
  IDE2_MAJOR : Nat
  IDE3_MAJOR : Nat
  IDE4_MAJOR : Nat
  IDE5_MAJOR : Nat
  IDE6_MAJOR : Nat
  IDE7_MAJOR : Nat
  IDE8_MAJOR : Nat
  IDE9_MAJOR : Nat
  SCSI_DISK0_MAJOR : Nat
  SCSI_DISK1_MAJOR : Nat
  SCSI_DISK7_MAJOR : Nat
deriving DecidableEq

/-- The values of the major numbers on Linux. -/
def linux_majors : major_numbers :=
  { IDE0_MAJOR := 3, IDE1_MAJOR := 22, IDE2_MAJOR := 33, IDE3_MAJOR := 34,
    IDE4_MAJOR := 56, IDE5_MAJOR := 57, IDE6_MAJOR := 88, IDE7_MAJOR := 89,
    IDE8_MAJOR := 90, IDE9_MAJOR := 91, SCSI_DISK0_MAJOR := 8, SCSI_DISK1_MAJOR := 65,
    SCSI_DISK7_MAJOR := 71 }

/-- The constant `SCSI_DISK8_MAJOR`. -/
def SCSI_DISK8_MAJOR : Nat := 128

/-- The constant `SCSI_DISK15_MAJOR`. -/
def SCSI_DISK15_MAJOR : Nat := 135

/-- The macro `IDE_DISK_MAJOR`. -/
def IDE_DISK_MAJOR (mj : major_numbers) (M : Nat) : Bool :=
  M == mj.IDE0_MAJOR || M == mj.IDE1_MAJOR ||
  M == mj.IDE2_MAJOR || M == mj.IDE3_MAJOR ||
  M == mj.IDE4_MAJOR || M == mj.IDE5_MAJOR ||
  M == mj.IDE6_MAJOR || M == mj.IDE7_MAJOR ||
  M == mj.IDE8_MAJOR || M == mj.IDE9_MAJOR

/-- The macro `SCSI_DISK_MAJOR`. -/
def SCSI_DISK_MAJOR (mj : major_numbers) (M : Nat) : Bool :=
  M == mj.SCSI_DISK0_MAJOR ||
  (decide (M ≥ mj.SCSI_DISK1_MAJOR) && decide (M ≤ mj.SCSI_DISK7_MAJOR)) ||
  (decide (M ≥ SCSI_DISK8_MAJOR) && decide (M ≤ SCSI_DISK15_MAJOR))

/-- The function `printable`. -/
def printable (mj : major_numbers) (f : flags) (major minor : Nat) : Bool :=
  if IDE_DISK_MAJOR mj major then
    (!(decide (minor &&& 0x3F ≠ 0)) && f.print_device)
      || (decide (minor &&& 0x3F ≠ 0) && f.print_partition)
  else if SCSI_DISK_MAJOR mj major then
    (!(decide (minor &&& 0x0F ≠ 0)) && f.print_device)
      || (decide (minor &&& 0x0F ≠ 0) && f.print_partition)
  else
    true

/-- The outcome of the `sscanf` of `initialize` on one line of the I/O file:
the number of converted items, the local `curr` and the local `reads`. -/
structure part_scan where
  items : Int
  curr : part_info
  reads : Nat
deriving DecidableEq

/-- The search loop of `initialize`: the index `p` at which it stops, the first
entry with the major and minor numbers of the line, or `n_partitions`. -/
def find_partition (major minor : Nat) : List part_info → Nat
  | [] => 0
  | q :: rest =>
    if q.major ≠ major ∨ q.minor ≠ minor then find_partition major minor rest + 1 else 0

/-- The two assignments `partition[p] = curr; n_partitions = p + 1`. -/
def register (partition : List part_info) (p : Nat) (curr : part_info) : List part_info :=
  partition.take p ++ [curr]

/-- The loop over `match_list` for one line. -/
def match_loop (match_list : List String) (p : Nat) (curr : part_info)
    (partition : List part_info) : List part_info :=
  match_list.foldl
    (fun part m => if curr.name = m then register part p curr else part) partition

/-- One iteration of the loop of `initialize`, for a table of `cap` entries. -/
def initialize_line (cap : Nat) (mj : major_numbers) (f : flags) (match_list : List String)
    (partition : List part_info) (l : part_scan) : List part_info :=
  if l.items = 4 then
    let p := find_partition l.curr.major l.curr.minor partition
    if p = partition.length ∧ p < cap then
      if match_list.length ≠ 0 then
        match_loop match_list p l.curr partition
      else if l.reads ≠ 0 ∧ printable mj f l.curr.major l.curr.minor = true then
        register partition p l.curr
      else
        partition
    else
      partition
  else
    partition

/-- The function `initialize` for a table of `cap` entries: `match_list` holds
the `n_dev` names of the command line, `stream` the scanned lines. -/
def initialize_with (cap : Nat) (mj : major_numbers) (f : flags) (kernel : Nat)
    (match_list : List String) (stream : List part_scan) (partition : List part_info) :
    Except String (List part_info) :=
  if kernel = 4 ∨ kernel = 6 then
    .ok (stream.foldl (initialize_line cap mj f match_list) partition)
  else
    .error "logic error in initialize()"

/-- The function `initialize` of the source, with its table of `MAX_PARTITIONS`
entries; the plain name is a reserved word of Lean. -/
def initialize_partitions (mj : major_numbers) (f : flags) (kernel : Nat)
    (match_list : List String) (stream : List part_scan) (partition : List part_info) :
    Except String (List part_info) :=
  initialize_with MAX_PARTITIONS mj f kernel match_list stream partition

/-! ## The output loop of `print_partition_stats` -/

/-- The function `print_partition_stats`: one row of printed numbers for each
index below `n_partitions`, in table order. In extended mode the row of index 0
ends with the CPU columns when `print_cpu` is set. -/
def print_partition_stats (ncpu HZ kernel : Nat) (f : flags) (st : state) : List (List ℚ) :=
  let dms := deltams ncpu HZ st.new_cpu st.old_cpu
  (List.range st.partition.length).map (fun p =>
    partition_columns f dms (partition_stats dms (st.new_blkio p) (st.old_blkio p)) ++
      (if f.print_disk_extended = true ∧ p = 0 ∧ f.print_cpu = true then
        print_cpu_stats kernel st.new_cpu st.old_cpu
      else []))

/-! ## The registry as the specification describes it -/

/-- The registration test of the specification: the line is a parsed candidate
and, with a non-empty filter, its name equals some filter entry; with an empty
filter, it has a positive read count and is accepted by `printable`. -/
def spec_accepts (mj : major_numbers) (f : flags) (nameFilter : List String)
    (l : part_scan) : Bool :=
  decide (l.items = 4) &&
    (if nameFilter.isEmpty then
      decide (0 < l.reads) && printable mj f l.curr.major l.curr.minor
    else
      decide (l.curr.name ∈ nameFilter))

/-- The accepted candidates of a discovery stream, in discovery order. -/
def spec_accepted (mj : major_numbers) (f : flags) (nameFilter : List String)
    (stream : List part_scan) : List part_info :=
  (stream.filter (spec_accepts mj f nameFilter)).map (fun l => l.curr)

/-- Whether a device with the major and minor numbers of `d` occurs in `seen`. -/
def spec_known (seen : List part_info) (d : part_info) : Bool :=
  seen.any (fun q => q.major == d.major && q.minor == d.minor)

/-- The candidates that are distinct by (major, minor) from the devices in
`seen` and from every earlier candidate, in order. -/
def spec_first_distinct : List part_info → List part_info → List part_info
  | _, [] => []
  | seen, d :: rest =>
    if spec_known seen d then spec_first_distinct seen rest
    else d :: spec_first_distinct (seen ++ [d]) rest

/-- The registry of the specification: the first `capacity` distinct accepted
candidates in discovery order. -/
def spec_registry (capacity : Nat) (mj : major_numbers) (f : flags)
    (nameFilter : List String) (stream : List part_scan) : List part_info :=
  (spec_first_distinct [] (spec_accepted mj f nameFilter stream)).take capacity

/-! ## `process` and the main loop -/

/-- What one call of `process` prints: whether `print_header_lines` ran, the rows
of `print_partition_stats`, and the columns of the call of `print_cpu_stats`
made by `process` itself, if any. -/
structure report where
  header : Bool
  partitions : List (List ℚ)
  cpu : Option (List ℚ)

/-- The loop "Save old stats" and the assignment `old_cpu = new_cpu`. -/
def save_old_stats (st : state) : state :=
  { st with
    old_blkio := fun p => if p < st.partition.length then st.new_blkio p else st.old_blkio p,
    old_cpu := st.new_cpu }

/-- The function `process`; `iolines` and `cpulines` are the scanned contents of
the two files at the time of the call. -/
def process (ncpu HZ kernel : Nat) (f : flags) (lineno : Int)
    (iolines : List stat_scan) (cpulines : List cpu_scan) (st : state) :
    Except String (report × state) :=
  match get_kernel_stats kernel iolines cpulines st with
  | .error e => .error e
  | .ok st1 =>
    let header : Bool := decide (lineno = 0) || f.print_disk_extended
    let rows := print_partition_stats ncpu HZ kernel f st1
    let cpu : Option (List ℚ) :=
      if f.print_disk_extended = false ∧ f.print_cpu = true then
        some (print_cpu_stats kernel st1.new_cpu st1.old_cpu)
      else none
    .ok ({ header := header, partitions := rows, cpu := cpu }, save_old_stats st1)

/-- The all-zero CPU record, the initial value of `new_cpu` and `old_cpu`. -/
def zero_cpu : cpu_info := { user := 0, system := 0, idle := 0, iowait := 0 }

/-- The global tables when `main` enters its loop: the table built by
`initialize`, every counter still zero. -/
def initial_state (partition : List part_info) : state :=
  { partition := partition,
    new_blkio := fun _ => { rd_ios := 0, rd_merges := 0, rd_sectors := 0, rd_ticks := 0,
                            wr_ios := 0, wr_merges := 0, wr_sectors := 0, wr_ticks := 0,
                            ticks := 0, aveq := 0 },
    old_blkio := fun _ => { rd_ios := 0, rd_merges := 0, rd_sectors := 0, rd_ticks := 0,
                            wr_ios := 0, wr_merges := 0, wr_sectors := 0, wr_ticks := 0,
                            ticks := 0, aveq := 0 },
    new_cpu := zero_cpu,
    old_cpu := zero_cpu }

/-- The main loop of `main`, one iteration for each element of `ticks`, the
contents of the two files at the successive calls of `process`; the counter
`lineno` runs modulo 21. -/
def main_loop (ncpu HZ kernel : Nat) (f : flags) :
    Int → List (List stat_scan × List cpu_scan) → state → Except String (List report)
  | _, [], _ => .ok []
  | lineno, t :: rest, st =>
    match process ncpu HZ kernel f lineno t.1 t.2 st with
    | .error e => .error e
    | .ok (r, st1) =>
      match main_loop ncpu HZ kernel f ((lineno + 1) % 21) rest st1 with
      | .error e => .error e
      | .ok rs => .ok (r :: rs)

/-! ## The arithmetic of doubles as a parameter

The definitions above compute on doubles in exact arithmetic. The definitions
of this section repeat the computations of `print_cpu_stats`,
`print_partition_stats` and `process` with the operations on doubles as
parameters: `cv` converts an unsigned integer to a double and `dv` divides two
doubles. With the conversion and the division of the rationals they are the
definitions above; with `conv_binary64` and `div_binary64` they round as the
binary64 format does; a statement for every `dv` does not depend on what a
quotient by zero is. -/

/-- The integer nearest to `t`, the even one of the two when `t` lies halfway. -/
def round_half_even (t : ℚ) : Int :=
  if t - (⌊t⌋ : ℚ) < 1 / 2 then ⌊t⌋
  else if 1 / 2 < t - (⌊t⌋ : ℚ) then ⌊t⌋ + 1
  else if ⌊t⌋ % 2 = 0 then ⌊t⌋ else ⌊t⌋ + 1

/-- The binary64 number nearest to `q`, ties to even: a significand of 53 bits
at the binary exponent of `q`. Exponent overflow and subnormal numbers are not
represented: the definition is the rounding of binary64 for
`2^(-1022) ≤ |q| < 2^1024` and for `q = 0`. -/
def round_binary64 (q : ℚ) : ℚ :=
  if q = 0 then 0
  else
    (round_half_even (q / (2 : ℚ) ^ (Int.log 2 |q| - 52)) : ℚ)
      * (2 : ℚ) ^ (Int.log 2 |q| - 52)

/-- The division of two binary64 numbers: the exact quotient, rounded. -/
def div_binary64 (x y : ℚ) : ℚ := round_binary64 (x / y)

/-- The conversion of an unsigned integer to binary64. -/
def conv_binary64 (n : Nat) : ℚ := round_binary64 (n : ℚ)

/-- The percentages computed by `print_cpu_stats`, for a conversion `cv` and a
division `dv` of doubles. -/
def cpu_percentages_fp (cv : Nat → ℚ) (dv : ℚ → ℚ → ℚ) (new_cpu old_cpu : cpu_info) :
    cpu_percent :=
  let cpu := cpu_delta new_cpu old_cpu
  let total := dv (cv (add64 (add64 (add64 cpu.user cpu.system) cpu.idle) cpu.iowait)) 100
  { user := dv (cv cpu.user) total,
    system := dv (cv cpu.system) total,
    idle := dv (cv cpu.idle) total,
    iowait := dv (cv cpu.iowait) total }

/-- The values printed by `print_cpu_stats`, for a conversion `cv` and a
division `dv` of doubles. -/
def print_cpu_stats_fp (cv : Nat → ℚ) (dv : ℚ → ℚ → ℚ) (kernel : Nat)
    (new_cpu old_cpu : cpu_info) : List ℚ :=
  let pc := cpu_percentages_fp cv dv new_cpu old_cpu
  [pc.user, pc.system] ++ (if kernel = 6 then [pc.iowait] else []) ++ [pc.idle]

/-- The macro `PER_SEC`, for a division `dv` of doubles. -/
def PER_SEC_div (dv : ℚ → ℚ → ℚ) (deltams x : ℚ) : ℚ := dv (1000 * x) deltams

/-- The numeric arguments of the `printf` of one iteration, by output mode, for
a division `dv` of doubles. -/
def partition_columns_div (dv : ℚ → ℚ → ℚ) (f : flags) (deltams : ℚ) (s : part_stats) :
    List ℚ :=
  if f.print_disk_extended then
    [PER_SEC_div dv deltams s.blkio.rd_merges, PER_SEC_div dv deltams s.blkio.wr_merges,
     PER_SEC_div dv deltams s.blkio.rd_ios, PER_SEC_div dv deltams s.blkio.wr_ios,
     dv (PER_SEC_div dv deltams s.blkio.rd_sectors) 2,
     dv (PER_SEC_div dv deltams s.blkio.wr_sectors) 2,
     s.size, s.queue, s.wait, s.svc_t, s.busy]
  else if f.print_disk_util then
    [PER_SEC_div dv deltams s.blkio.rd_ios, PER_SEC_div dv deltams s.blkio.wr_ios, s.busy]
  else
    [PER_SEC_div dv deltams s.n_kbytes, PER_SEC_div dv deltams s.n_ios, s.svc_t]

/-- The function `print_partition_stats`, for a division `dv` of doubles in the
loop body and in `print_cpu_stats`. -/
def print_partition_stats_div (dv : ℚ → ℚ → ℚ) (ncpu HZ kernel : Nat) (f : flags)
    (st : state) : List (List ℚ) :=
  let dms := deltams ncpu HZ st.new_cpu st.old_cpu
  (List.range st.partition.length).map (fun p =>
    partition_columns_div dv f dms
        (partition_stats_div dv dms (st.new_blkio p) (st.old_blkio p)) ++
      (if f.print_disk_extended = true ∧ p = 0 ∧ f.print_cpu = true then
        print_cpu_stats_fp (fun n => (n : ℚ)) dv kernel st.new_cpu st.old_cpu
      else []))

/-- The function `process`, for a division `dv` of doubles. -/
def process_div (dv : ℚ → ℚ → ℚ) (ncpu HZ kernel : Nat) (f : flags) (lineno : Int)
    (iolines : List stat_scan) (cpulines : List cpu_scan) (st : state) :
    Except String (report × state) :=
  match get_kernel_stats kernel iolines cpulines st with
  | .error e => .error e
  | .ok st1 =>
    let header : Bool := decide (lineno = 0) || f.print_disk_extended
    let rows := print_partition_stats_div dv ncpu HZ kernel f st1
    let cpu : Option (List ℚ) :=
      if f.print_disk_extended = false ∧ f.print_cpu = true then
        some (print_cpu_stats_fp (fun n => (n : ℚ)) dv kernel st1.new_cpu st1.old_cpu)
      else none
    .ok ({ header := header, partitions := rows, cpu := cpu }, save_old_stats st1)

/-! ## Concrete records used in examples -/

/-- The all-zero counter record, the initial value of the global tables. -/
def zero_blkio : blkio_info :=
  { rd_ios := 0, rd_merges := 0, rd_sectors := 0, rd_ticks := 0, wr_ios := 0,
    wr_merges := 0, wr_sectors := 0, wr_ticks := 0, ticks := 0, aveq := 0 }

/-- A current record whose differences to `zero_blkio` are those of the
end-to-end scenario. -/
def scenario_blkio : blkio_info :=
  { zero_blkio with rd_ios := 100, wr_ios := 50, rd_sectors := 2000, wr_sectors := 1000,
                    ticks := 3000 }

/-- A current record in which both sector counters advanced by `2^63`. -/
def huge_sectors_blkio : blkio_info :=
  { zero_blkio with rd_sectors := 2 ^ 63, wr_sectors := 2 ^ 63 }

/-- The whole disk `sda`, device 8:0. -/
def sda : part_info := { major := 8, minor := 0, name := "sda" }

/-- The whole disk `sdb`, device 8:16. -/
def sdb : part_info := { major := 8, minor := 16, name := "sdb" }

/-- The whole disk `sdc`, device 8:32. -/
def sdc : part_info := { major := 8, minor := 32, name := "sdc" }

/-- A discovery line that scans to four items. -/
def discovery_line (d : part_info) (reads : Nat) : part_scan :=
  { items := 4, curr := d, reads := reads }

/-- A current record in which the read and the write counters of I/Os and of
ticks all advanced by `2^31` from zero. -/
def wrapping_ios_blkio : blkio_info :=
  { zero_blkio with rd_ios := 2 ^ 31, wr_ios := 2 ^ 31, rd_ticks := 2 ^ 31, wr_ticks := 2 ^ 31,
                    rd_sectors := 4096, ticks := 500 }

/-- A previous record with every counter at the top of its range. -/
def top_blkio : blkio_info :=
  { rd_ios := 2 ^ 32 - 1, rd_merges := 2 ^ 32 - 1, rd_sectors := 2 ^ 64 - 1,
    rd_ticks := 2 ^ 32 - 1, wr_ios := 2 ^ 32 - 1, wr_merges := 2 ^ 32 - 1,
    wr_sectors := 2 ^ 64 - 1, wr_ticks := 2 ^ 32 - 1, ticks := 2 ^ 32 - 1,
    aveq := 2 ^ 32 - 1 }

/-- A record with every field equal to `v`. -/
def const_blkio (v : Nat) : blkio_info :=
  { rd_ios := v, rd_merges := v, rd_sectors := v, rd_ticks := v, wr_ios := v,
    wr_merges := v, wr_sectors := v, wr_ticks := v, ticks := v, aveq := v }

/-- The flags of a run without options: `main` sets `print_cpu`. -/
def no_option_flags : flags := { default_flags with print_cpu := true }

/-- A fully parsed line of the I/O file for the disk `sda` with the counters of
the end-to-end scenario. -/
def sda_stat_line : stat_scan :=
  { items := 12, major := 8, minor := 0, blkio := scenario_blkio }

/-- The aggregate line of the CPU file with 300 user, 100 system and 600 idle
ticks. -/
def cpu_stat_line : cpu_scan :=
  { buffer := "cpu  300 0 100 600 0 0 0", items := 7, user := 300, nice := 0,
    system := 100, idle := 600, iowait := 0, irq := 0, softirq := 0 }

/-- The tables after a cycle that read `sda_stat_line` and `cpu_stat_line`:
both generations hold the same counters. -/
def steady_state : state :=
  { partition := [sda],
    new_blkio := fun _ => scenario_blkio,
    old_blkio := fun _ => scenario_blkio,
    new_cpu := { user := 300, system := 100, idle := 600, iowait := 0 },
    old_cpu := { user := 300, system := 100, idle := 600, iowait := 0 } }

/-- A line of six items for the partition 8:1 whose first and third numeric
fields, the counts of read and write I/Os, are 7 and 9. -/
def sda1_partition_line : stat_scan :=
  { items := 6, major := 8, minor := 1,
    blkio := { rd_ios := 7, rd_merges := 500, rd_sectors := 9, rd_ticks := 300, wr_ios := 11,
               wr_merges := 12, wr_sectors := 13, wr_ticks := 14, ticks := 15, aveq := 16 } }

/-- A current CPU record with 57 idle ticks and nothing else. -/
def idle_57_cpu : cpu_info := { user := 0, system := 0, idle := 57, iowait := 0 }

/-! ## Arithmetic lemmas -/

/-- A 32-bit difference is below `2^32`. -/
theorem sub32_lt (a b : Nat) : sub32 a b < 2 ^ 32 := by
  unfold sub32; omega

/-- A 32-bit sum is below `2^32`. -/
theorem add32_lt (a b : Nat) : add32 a b < 2 ^ 32 := by
  unfold add32; omega

/-- A 64-bit difference is below `2^64`. -/
theorem sub64_lt (a b : Nat) : sub64 a b < 2 ^ 64 := by
  unfold sub64; omega

/-- A 64-bit sum is below `2^64`. -/
theorem add64_lt (a b : Nat) : add64 a b < 2 ^ 64 := by
  unfold add64; omega

/-- A 64-bit difference of a counter that did not decrease is the plain
difference. -/
theorem sub64_of_le {a b : Nat} (hb : b ≤ a) (ha : a < 2 ^ 64) : sub64 a b = a - b := by
  unfold sub64; omega

/-- A 64-bit sum that fits is the plain sum. -/
theorem add64_of_lt {a b : Nat} (h : a + b < 2 ^ 64) : add64 a b = a + b := by
  unfold add64; omega

/-- The row `print_partition_stats` prints for a registered index holds the
columns of that iteration, computed with the elapsed time of the CPU
counters. -/
theorem print_partition_stats_row (ncpu HZ kernel : Nat) (f : flags) (st : state) (p : Nat)
    (hp : p < st.partition.length) :
    (print_partition_stats ncpu HZ kernel f st)[p]? =
      some (partition_columns f (deltams ncpu HZ st.new_cpu st.old_cpu)
          (partition_stats (deltams ncpu HZ st.new_cpu st.old_cpu)
            (st.new_blkio p) (st.old_blkio p)) ++
        (if f.print_disk_extended = true ∧ p = 0 ∧ f.print_cpu = true then
          print_cpu_stats kernel st.new_cpu st.old_cpu
        else [])) := by
  unfold print_partition_stats
  simp [hp]

/-- Under monotone counters whose current sum fits 64 bits, the differences and
the total of `print_cpu_stats` are the plain differences and their sum. -/
theorem cpu_delta_exact (c o : cpu_info)
    (hu : o.user ≤ c.user) (hs : o.system ≤ c.system) (hi : o.idle ≤ c.idle)
    (hw : o.iowait ≤ c.iowait)
    (hsum : c.user + c.system + c.idle + c.iowait < 2 ^ 64) :
    cpu_delta c o = { user := c.user - o.user, system := c.system - o.system,
                      idle := c.idle - o.idle, iowait := c.iowait - o.iowait } ∧
    cpu_total (cpu_delta c o) =
      (((c.user - o.user) + (c.system - o.system) + (c.idle - o.idle)
        + (c.iowait - o.iowait) : Nat) : ℚ) / 100 := by
  have e1 : sub64 c.user o.user = c.user - o.user := sub64_of_le hu (by omega)
  have e2 : sub64 c.system o.system = c.system - o.system := sub64_of_le hs (by omega)
  have e3 : sub64 c.idle o.idle = c.idle - o.idle := sub64_of_le hi (by omega)
  have e4 : sub64 c.iowait o.iowait = c.iowait - o.iowait := sub64_of_le hw (by omega)
  have hd : cpu_delta c o =
      (⟨c.user - o.user, c.system - o.system, c.idle - o.idle, c.iowait - o.iowait⟩ :
        cpu_info) := by
    simp only [cpu_delta, e1, e2, e3, e4]
  refine ⟨hd, ?_⟩
  rw [hd]
  simp only [cpu_total]
  rw [add64_of_lt (a := c.user - o.user) (b := c.system - o.system) (by omega),
    add64_of_lt (a := c.user - o.user + (c.system - o.system)) (b := c.idle - o.idle)
      (by omega),
    add64_of_lt (a := c.user - o.user + (c.system - o.system) + (c.idle - o.idle))
      (b := c.iowait - o.iowait) (by omega)]

/-- A 32-bit difference recovers an increment below `2^32` from the wrapped
counter. -/
theorem sub32_wrapped (o d : Nat) (hd : d < 2 ^ 32) : sub32 ((o + d) % 2 ^ 32) o = d := by
  unfold sub32; omega

/-- A 64-bit difference recovers an increment below `2^64` from the wrapped
counter. -/
theorem sub64_wrapped (o d : Nat) (hd : d < 2 ^ 64) : sub64 ((o + d) % 2 ^ 64) o = d := by
  unfold sub64; omega

/-- A 64-bit difference is congruent to the integer difference. -/
theorem sub64_modEq (a b : Nat) : Int.ModEq (2 ^ 64) (sub64 a b : ℤ) ((a : ℤ) - (b : ℤ)) := by
  unfold Int.ModEq sub64
  omega

/-- A 64-bit sum is congruent to the integer sum. -/
theorem add64_modEq (a b : Nat) : Int.ModEq (2 ^ 64) (add64 a b : ℤ) ((a : ℤ) + (b : ℤ)) := by
  unfold Int.ModEq add64
  omega

/-- Two 64-bit values that are congruent modulo `2^64` are equal. -/
theorem eq_of_modEq_of_lt {x y : Nat} (hx : x < 2 ^ 64) (hy : y < 2 ^ 64)
    (h : Int.ModEq (2 ^ 64) (x : ℤ) (y : ℤ)) : x = y := by
  unfold Int.ModEq at h
  omega

/-- The difference of two 64-bit sums of four counters is the 64-bit sum of
the four differences. -/
theorem sub64_sum_eq_sum_sub64 (a b c d a' b' c' d' : Nat) :
    sub64 (add64 (add64 (add64 a b) c) d) (add64 (add64 (add64 a' b') c') d') =
      add64 (add64 (add64 (sub64 a a') (sub64 b b')) (sub64 c c')) (sub64 d d') := by
  apply eq_of_modEq_of_lt
  · unfold sub64; omega
  · unfold add64; omega
  · have l1 := ((((add64_modEq a b).add_right (c : ℤ)).symm.trans
      (add64_modEq (add64 a b) c).symm).symm.add_right (d : ℤ)).symm.trans
      (add64_modEq (add64 (add64 a b) c) d).symm
    have l2 := ((((add64_modEq a' b').add_right (c' : ℤ)).symm.trans
      (add64_modEq (add64 a' b') c').symm).symm.add_right (d' : ℤ)).symm.trans
      (add64_modEq (add64 (add64 a' b') c') d').symm
    have l := (sub64_modEq (add64 (add64 (add64 a b) c) d)
      (add64 (add64 (add64 a' b') c') d')).trans (l1.symm.sub l2.symm)
    have r0 := ((sub64_modEq a a').add (sub64_modEq b b')).symm.trans
      (add64_modEq (sub64 a a') (sub64 b b')).symm
    have r1 := (r0.symm.add (sub64_modEq c c')).symm.trans
      (add64_modEq (add64 (sub64 a a') (sub64 b b')) (sub64 c c')).symm
    have r2 := (r1.symm.add (sub64_modEq d d')).symm.trans
      (add64_modEq (add64 (add64 (sub64 a a') (sub64 b b')) (sub64 c c')) (sub64 d d')).symm
    refine l.trans (Int.ModEq.trans ?_ r2)
    have e : (a : ℤ) + b + c + d - (a' + b' + c' + d')
        = (a - a') + (b - b') + (c - c') + (d - d') := by ring
    rw [e]

/-! ## Lemmas on `get_kernel_stats` -/

/-- The record stored for a line of six items. -/
theorem remap_partition_eq (b : blkio_info) :
    remap_partition b =
      { rd_ios := 0, rd_merges := 0, rd_sectors := b.rd_merges, rd_ticks := 0, wr_ios := 0,
        wr_merges := 0, wr_sectors := b.rd_ticks, wr_ticks := 0, ticks := 0, aveq := 0 } :=
  rfl

/-- The locate loop stores the record at the first entry with the numbers of
the line. -/
theorem locate_store_first (mj mn : Nat) (b : blkio_info) :
    ∀ (part : List part_info) (k : Nat) (nb : Nat → blkio_info) (p : Nat) (d : part_info),
      part[p]? = some d → d.major = mj → d.minor = mn →
      (∀ q e, q < p → part[q]? = some e → ¬ (e.major = mj ∧ e.minor = mn)) →
      locate_store mj mn b part k nb (k + p) = b := by
  intro part
  induction part with
  | nil => intro k nb p d h; simp at h
  | cons x rest ih =>
    intro k nb p d h hmj hmn hfirst
    cases p with
    | zero =>
      simp only [List.getElem?_cons_zero, Option.some.injEq] at h
      subst h
      simp [locate_store, hmj, hmn]
    | succ p =>
      have hx : ¬ (x.major = mj ∧ x.minor = mn) :=
        hfirst 0 x (Nat.succ_pos p) (by simp)
      simp only [List.getElem?_cons_succ] at h
      have := ih (k + 1) nb p d h hmj hmn
        (fun q e hq he => hfirst (q + 1) e (Nat.succ_lt_succ hq) (by simpa using he))
      simp only [locate_store, hx, if_false]
      have e : k + (p + 1) = k + 1 + p := by omega
      rw [e]; exact this

/-- The locate loop changes the table at most at an index whose entry carries
the numbers of the line. -/
theorem locate_store_frame (mj mn : Nat) (b : blkio_info) :
    ∀ (part : List part_info) (k : Nat) (nb : Nat → blkio_info) (i : Nat),
      locate_store mj mn b part k nb i ≠ nb i →
      ∃ e, k ≤ i ∧ part[i - k]? = some e ∧ e.major = mj ∧ e.minor = mn := by
  intro part
  induction part with
  | nil => intro k nb i h; simp [locate_store] at h
  | cons x rest ih =>
    intro k nb i h
    by_cases hx : x.major = mj ∧ x.minor = mn
    · simp only [locate_store, hx, and_self, if_true] at h
      by_cases hik : i = k
      · subst hik
        exact ⟨x, le_refl _, by simp, hx.1, hx.2⟩
      · exact absurd (Function.update_noteq hik b nb) h
    · simp only [locate_store, hx, if_false] at h
      obtain ⟨e, hle, he, h1, h2⟩ := ih (k + 1) nb i h
      refine ⟨e, by omega, ?_, h1, h2⟩
      have : i - k = (i - (k + 1)) + 1 := by omega
      rw [this, List.getElem?_cons_succ]; exact he

/-- A line leaves the table untouched at an index whose entry has other major
and minor numbers. -/
theorem get_kernel_stats_line_frame (part : List part_info) (nb : Nat → blkio_info)
    (l : stat_scan) (i : Nat)
    (h : ∀ e, part[i]? = some e → ¬ (e.major = l.major ∧ e.minor = l.minor)) :
    get_kernel_stats_line part nb l i = nb i := by
  unfold get_kernel_stats_line
  split_ifs with h12
  · by_contra hne
    obtain ⟨e, _, he, h1, h2⟩ := locate_store_frame _ _ _ part 0 nb i hne
    exact h e (by simpa using he) ⟨h1, h2⟩
  · rfl
  · by_contra hne
    obtain ⟨e, _, he, h1, h2⟩ := locate_store_frame _ _ _ part 0 nb i hne
    exact h e (by simpa using he) ⟨h1, h2⟩
  · rfl

/-- A line with an item count other than 6 and 12 leaves the table untouched. -/
theorem get_kernel_stats_line_skip (part : List part_info) (nb : Nat → blkio_info)
    (l : stat_scan) (h6 : l.items ≠ 6) (h12 : l.items ≠ 12) :
    get_kernel_stats_line part nb l = nb := by
  unfold get_kernel_stats_line
  simp [h6, h12]

/-- Lines that do not name the device of index `i`, or are not fully parsed,
leave the record of index `i` untouched. -/
theorem foldl_get_kernel_stats_line_frame (part : List part_info) (i : Nat) :
    ∀ (post : List stat_scan) (nb : Nat → blkio_info),
      (∀ m ∈ post, (m.items ≠ 6 ∧ m.items ≠ 12) ∨
        ∀ e, part[i]? = some e → ¬ (e.major = m.major ∧ e.minor = m.minor)) →
      post.foldl (get_kernel_stats_line part) nb i = nb i := by
  intro post
  induction post with
  | nil => intro nb _; rfl
  | cons m rest ih =>
    intro nb h
    rw [List.foldl_cons, ih _ (fun m' hm' => h m' (List.mem_cons_of_mem _ hm'))]
    rcases h m (List.mem_cons_self _ _) with hs | hf
    · rw [get_kernel_stats_line_skip part nb m hs.1 hs.2]
    · exact get_kernel_stats_line_frame part nb m i hf

/-- A line that does not begin with `cpu ` leaves `new_cpu` untouched. -/
theorem foldl_get_kernel_stats_cpu_line_skip :
    ∀ (post : List cpu_scan) (c : cpu_info),
      (∀ m ∈ post, m.buffer.data.take 4 ≠ ['c', 'p', 'u', ' ']) →
      post.foldl get_kernel_stats_cpu_line c = c := by
  intro post
  induction post with
  | nil => intro c _; rfl
  | cons m rest ih =>
    intro c h
    rw [List.foldl_cons]
    have hm : get_kernel_stats_cpu_line c m = c := by
      unfold get_kernel_stats_cpu_line
      rw [if_neg (h m (List.mem_cons_self _ _))]
    rw [hm]
    exact ih c (fun m' hm' => h m' (List.mem_cons_of_mem _ hm'))

/-! ## Lemmas on `initialize` -/

/-- The search loop stops at `n_partitions` exactly when no entry carries the
numbers searched for. -/
theorem find_partition_eq_length (mj mn : Nat) :
    ∀ part : List part_info,
      find_partition mj mn part ≤ part.length ∧
      (find_partition mj mn part = part.length ↔
        ∀ q ∈ part, ¬ (q.major = mj ∧ q.minor = mn)) := by
  intro part
  induction part with
  | nil => simp [find_partition]
  | cons x rest ih =>
    by_cases hx : x.major = mj ∧ x.minor = mn
    · have hf : find_partition mj mn (x :: rest) = 0 := by
        simp [find_partition, hx]
      rw [hf]
      refine ⟨Nat.zero_le _, ?_⟩
      constructor
      · intro h; simp at h
      · intro h; exact absurd hx (h x (List.mem_cons_self _ _))
    · have hx' : x.major ≠ mj ∨ x.minor ≠ mn := by
        by_cases h1 : x.major = mj
        · exact Or.inr (fun h2 => hx ⟨h1, h2⟩)
        · exact Or.inl h1
      have hf : find_partition mj mn (x :: rest) = find_partition mj mn rest + 1 := by
        simp only [find_partition]; rw [if_pos hx']
      rw [hf]
      refine ⟨by simpa using ih.1, ?_⟩
      simp only [List.length_cons, Nat.add_right_cancel_iff, List.mem_cons, forall_eq_or_imp]
      rw [ih.2]
      exact ⟨fun h => ⟨hx, h⟩, fun h => h.2⟩

/-- Registering at the end of the table appends the entry. -/
theorem register_at_length (part : List part_info) (c : part_info) :
    register part part.length c = part ++ [c] := by
  simp [register]

/-- Registering again at the same index changes nothing. -/
theorem register_again (part : List part_info) (c : part_info) :
    register (part ++ [c]) part.length c = part ++ [c] := by
  simp [register]

/-- The loop over `match_list` on a table already extended by the entry. -/
theorem match_loop_done (c : part_info) (part : List part_info) :
    ∀ ml : List String, match_loop ml part.length c (part ++ [c]) = part ++ [c] := by
  intro ml
  induction ml with
  | nil => rfl
  | cons m rest ih =>
    unfold match_loop at ih ⊢
    rw [List.foldl_cons]
    split_ifs
    · rw [register_again]; exact ih
    · exact ih

/-- The loop over `match_list` appends the entry when its name occurs in the
list, and leaves the table alone otherwise. -/
theorem match_loop_eq (c : part_info) (part : List part_info) :
    ∀ ml : List String,
      match_loop ml part.length c part = if c.name ∈ ml then part ++ [c] else part := by
  intro ml
  induction ml with
  | nil => simp [match_loop]
  | cons m rest ih =>
    have hstep : match_loop (m :: rest) part.length c part =
        match_loop rest part.length c
          (if c.name = m then register part part.length c else part) := by
      simp [match_loop]
    rw [hstep]
    by_cases hm : c.name = m
    · rw [if_pos hm, register_at_length, match_loop_done]
      simp [hm]
    · rw [if_neg hm, ih]
      simp [hm]

/-- One iteration of `initialize` appends the candidate of the line when the
line is parsed, the candidate is absent from the table, the table is below
capacity and the selection test holds; otherwise the table is unchanged. -/
theorem initialize_line_eq (cap : Nat) (mj : major_numbers) (f : flags)
    (ml : List String) (part : List part_info) (l : part_scan) :
    initialize_line cap mj f ml part l =
      if l.items = 4 ∧ (∀ q ∈ part, ¬ (q.major = l.curr.major ∧ q.minor = l.curr.minor)) ∧
          part.length < cap ∧
          (if ml = [] then l.reads ≠ 0 ∧ printable mj f l.curr.major l.curr.minor = true
            else l.curr.name ∈ ml)
      then part ++ [l.curr] else part := by
  obtain ⟨-, hfind⟩ := find_partition_eq_length l.curr.major l.curr.minor part
  by_cases h4 : l.items = 4
  · by_cases habs : ∀ q ∈ part, ¬ (q.major = l.curr.major ∧ q.minor = l.curr.minor)
    · have hp : find_partition l.curr.major l.curr.minor part = part.length := hfind.mpr habs
      by_cases hcap : part.length < cap
      · by_cases hml : ml = []
        · subst hml
          by_cases hacc : l.reads ≠ 0 ∧ printable mj f l.curr.major l.curr.minor = true
          · rw [if_pos ⟨h4, habs, hcap, by rw [if_pos rfl]; exact hacc⟩]
            simp [initialize_line, h4, hp, hcap, hacc, register_at_length]
          · rw [if_neg (fun h => hacc (by simpa using h.2.2.2))]
            simp only [initialize_line, h4, hp, hcap, if_true, and_self, List.length_nil,
              ne_eq, not_true_eq_false, if_false]
            rw [if_neg hacc]
        · have hlen : ml.length ≠ 0 := by
            intro h; exact hml (List.length_eq_zero.mp h)
          have hl : initialize_line cap mj f ml part l
              = match_loop ml part.length l.curr part := by
            simp only [initialize_line, h4, hp, hcap, if_true, and_self]
            rw [if_pos hlen]
          rw [hl, match_loop_eq]
          by_cases hin : l.curr.name ∈ ml
          · rw [if_pos hin, if_pos ⟨h4, habs, hcap, by rw [if_neg hml]; exact hin⟩]
          · rw [if_neg hin, if_neg (fun h => hin (by simpa [hml] using h.2.2.2))]
      · rw [if_neg (fun h => hcap h.2.2.1)]
        simp [initialize_line, h4, hp, hcap]
    · have hp : find_partition l.curr.major l.curr.minor part ≠ part.length :=
        fun h => habs (hfind.mp h)
      rw [if_neg (fun h => habs h.2.1)]
      simp [initialize_line, h4, hp]
  · rw [if_neg (fun h => h4 h.1)]
    simp [initialize_line, h4]

/-- One iteration of `initialize` either leaves the table unchanged or appends
the candidate of a parsed line that is absent from the table, below capacity
and passes the selection test. -/
theorem initialize_line_cases (cap : Nat) (mj : major_numbers) (f : flags)
    (ml : List String) (part : List part_info) (l : part_scan) :
    initialize_line cap mj f ml part l = part ∨
    (initialize_line cap mj f ml part l = part ++ [l.curr] ∧ l.items = 4 ∧
      (∀ q ∈ part, ¬ (q.major = l.curr.major ∧ q.minor = l.curr.minor)) ∧
      part.length < cap ∧
      (if ml = [] then l.reads ≠ 0 ∧ printable mj f l.curr.major l.curr.minor = true
        else l.curr.name ∈ ml)) := by
  rw [initialize_line_eq]
  by_cases hc : l.items = 4 ∧
      (∀ q ∈ part, ¬ (q.major = l.curr.major ∧ q.minor = l.curr.minor)) ∧
      part.length < cap ∧
      (if ml = [] then l.reads ≠ 0 ∧ printable mj f l.curr.major l.curr.minor = true
        else l.curr.name ∈ ml)
  · rw [if_pos hc]; exact Or.inr ⟨rfl, hc⟩
  · rw [if_neg hc]; exact Or.inl rfl

/-- The test `spec_accepts` in propositional form. -/
theorem spec_accepts_iff (mj : major_numbers) (f : flags) (ml : List String) (l : part_scan) :
    spec_accepts mj f ml l = true ↔
      l.items = 4 ∧
        (if ml = [] then l.reads ≠ 0 ∧ printable mj f l.curr.major l.curr.minor = true
          else l.curr.name ∈ ml) := by
  unfold spec_accepts
  cases ml with
  | nil => simp [Nat.pos_iff_ne_zero]
  | cons m rest => simp

/-- The test `spec_known` in propositional form. -/
theorem spec_known_iff (seen : List part_info) (d : part_info) :
    spec_known seen d = true ↔ ¬ ∀ q ∈ seen, ¬ (q.major = d.major ∧ q.minor = d.minor) := by
  unfold spec_known
  simp

/-- The distinct candidates are a sublist of the candidates. -/
theorem spec_first_distinct_sublist :
    ∀ (cands seen : List part_info), (spec_first_distinct seen cands).Sublist cands := by
  intro cands
  induction cands with
  | nil => intro seen; simp [spec_first_distinct]
  | cons d rest ih =>
    intro seen
    unfold spec_first_distinct
    split_ifs
    · exact (ih seen).cons d
    · exact (ih (seen ++ [d])).cons₂ d

/-- The loop of `initialize` extends the table by the distinct accepted
candidates of the stream, up to the capacity. -/
theorem foldl_initialize_line (cap : Nat) (mj : major_numbers) (f : flags)
    (ml : List String) :
    ∀ (stream : List part_scan) (part : List part_info),
      stream.foldl (initialize_line cap mj f ml) part =
        part ++ (spec_first_distinct part (spec_accepted mj f ml stream)).take
          (cap - part.length) := by
  intro stream
  induction stream with
  | nil => intro part; simp [spec_accepted, spec_first_distinct]
  | cons l rest ih =>
    intro part
    rw [List.foldl_cons, initialize_line_eq]
    by_cases hacc : spec_accepts mj f ml l = true
    · have hA : spec_accepted mj f ml (l :: rest) = l.curr :: spec_accepted mj f ml rest := by
        simp [spec_accepted, List.filter_cons, hacc]
      obtain ⟨h4, hcond⟩ := (spec_accepts_iff mj f ml l).mp hacc
      by_cases hkn : spec_known part l.curr = true
      · have habs := (spec_known_iff part l.curr).mp hkn
        rw [if_neg (fun h => habs h.2.1), ih, hA]
        simp only [spec_first_distinct, hkn, if_true]
      · have habs : ∀ q ∈ part, ¬ (q.major = l.curr.major ∧ q.minor = l.curr.minor) := by
          by_contra h
          exact hkn ((spec_known_iff part l.curr).mpr h)
        rw [hA]
        simp only [spec_first_distinct, hkn, Bool.false_eq_true, if_false]
        by_cases hcap : part.length < cap
        · rw [if_pos ⟨h4, habs, hcap, hcond⟩, ih]
          have e : cap - part.length = (cap - (part ++ [l.curr]).length) + 1 := by
            simp only [List.length_append, List.length_singleton]; omega
          rw [e, List.take_succ_cons, List.append_assoc, List.singleton_append]
        · rw [if_neg (fun h => hcap h.2.2.1), ih]
          have e : cap - part.length = 0 := by omega
          rw [e, List.take_zero, List.take_zero]
    · have hA : spec_accepted mj f ml (l :: rest) = spec_accepted mj f ml rest := by
        simp [spec_accepted, List.filter_cons, hacc]
      have hn : ¬ (l.items = 4 ∧
          (∀ q ∈ part, ¬ (q.major = l.curr.major ∧ q.minor = l.curr.minor)) ∧
          part.length < cap ∧
          (if ml = [] then l.reads ≠ 0 ∧ printable mj f l.curr.major l.curr.minor = true
            else l.curr.name ∈ ml)) :=
        fun h => hacc ((spec_accepts_iff mj f ml l).mpr ⟨h.1, h.2.2.2⟩)
      rw [if_neg hn, ih, hA]

/-- The loop of `initialize` keeps the entries of the table pairwise distinct
by (major, minor). -/
theorem foldl_initialize_line_pairwise (cap : Nat) (mj : major_numbers) (f : flags)
    (ml : List String) :
    ∀ (stream : List part_scan) (part : List part_info),
      part.Pairwise (fun a b => ¬ (a.major = b.major ∧ a.minor = b.minor)) →
      (stream.foldl (initialize_line cap mj f ml) part).Pairwise
        (fun a b => ¬ (a.major = b.major ∧ a.minor = b.minor)) := by
  intro stream
  induction stream with
  | nil => intro part h; exact h
  | cons l rest ih =>
    intro part h
    rw [List.foldl_cons]
    apply ih
    rcases initialize_line_cases cap mj f ml part l with he | ⟨he, -, habs, -, -⟩
    · rw [he]; exact h
    · rw [he, List.pairwise_append]
      refine ⟨h, List.pairwise_singleton _ _, ?_⟩
      intro a ha b hb
      rw [List.mem_singleton] at hb
      subst hb
      exact habs a ha

/-- Every candidate has the numbers of a device already seen or of a device
among the distinct candidates. -/
theorem spec_first_distinct_complete :
    ∀ (cands seen : List part_info) (d : part_info), d ∈ cands →
      (∃ q ∈ seen, q.major = d.major ∧ q.minor = d.minor) ∨
      (∃ e ∈ spec_first_distinct seen cands, e.major = d.major ∧ e.minor = d.minor) := by
  intro cands
  induction cands with
  | nil => intro seen d hd; simp at hd
  | cons c rest ih =>
    intro seen d hd
    by_cases hkn : spec_known seen c = true
    · have hsfd : spec_first_distinct seen (c :: rest) = spec_first_distinct seen rest := by
        simp only [spec_first_distinct, hkn, if_true]
      rw [hsfd]
      rcases List.mem_cons.mp hd with hdc | hdr
      · subst hdc
        have h := (spec_known_iff seen d).mp hkn
        left
        by_contra hno
        exact h (fun q hq hm => hno ⟨q, hq, hm⟩)
      · exact ih seen d hdr
    · have hsfd : spec_first_distinct seen (c :: rest)
          = c :: spec_first_distinct (seen ++ [c]) rest := by
        simp only [spec_first_distinct, hkn, Bool.false_eq_true, if_false]
      rw [hsfd]
      rcases List.mem_cons.mp hd with hdc | hdr
      · subst hdc
        exact Or.inr ⟨d, List.mem_cons_self _ _, rfl, rfl⟩
      · rcases ih (seen ++ [c]) d hdr with ⟨q, hq, hm⟩ | ⟨e, he, hm⟩
        · rcases List.mem_append.mp hq with hqs | hqc
          · exact Or.inl ⟨q, hqs, hm⟩
          · rw [List.mem_singleton] at hqc
            subst hqc
            exact Or.inr ⟨q, List.mem_cons_self _ _, hm⟩
        · exact Or.inr ⟨e, List.mem_cons_of_mem _ he, hm⟩

/-- The loop of `initialize` only appends: the table it starts from is a prefix
of the table it ends with. -/
theorem foldl_initialize_line_prefix (cap : Nat) (mj : major_numbers) (f : flags)
    (ml : List String) (stream : List part_scan) (part : List part_info) :
    part <+: stream.foldl (initialize_line cap mj f ml) part := by
  rw [foldl_initialize_line]
  exact List.prefix_append _ _

/-- Every accepted line of the stream has its device numbers in the final
table, unless the table is full. -/
theorem foldl_initialize_line_complete (cap : Nat) (mj : major_numbers) (f : flags)
    (ml : List String) (stream : List part_scan) (l : part_scan) (hl : l ∈ stream)
    (hacc : spec_accepts mj f ml l = true) :
    cap ≤ (stream.foldl (initialize_line cap mj f ml) []).length ∨
    ∃ d ∈ stream.foldl (initialize_line cap mj f ml) [],
      d.major = l.curr.major ∧ d.minor = l.curr.minor := by
  rw [foldl_initialize_line, List.nil_append, List.length_nil, Nat.sub_zero]
  have hmem : l.curr ∈ spec_accepted mj f ml stream := by
    unfold spec_accepted
    exact List.mem_map.mpr ⟨l, List.mem_filter.mpr ⟨hl, hacc⟩, rfl⟩
  rcases spec_first_distinct_complete _ [] l.curr hmem with ⟨q, hq, _⟩ | ⟨e, he, hm⟩
  · simp at hq
  · by_cases hlen : (spec_first_distinct [] (spec_accepted mj f ml stream)).length ≤ cap
    · right
      rw [List.take_of_length_le hlen]
      exact ⟨e, he, hm⟩
    · left
      rw [List.length_take]
      omega

/-! ## Lemmas on `process` -/

/-- The difference of a 32-bit counter with itself is 0. -/
theorem sub32_self (a : Nat) : sub32 a a = 0 := by
  unfold sub32; omega

/-- The difference of a 64-bit counter with itself is 0. -/
theorem sub64_self (a : Nat) : sub64 a a = 0 := by
  unfold sub64; omega

/-- The differences of a record with itself are all 0. -/
theorem blkio_delta_self (b : blkio_info) : blkio_delta b b = zero_blkio := by
  simp [blkio_delta, zero_blkio, sub32_self, sub64_self]

/-- The differences of a CPU record with itself are all 0. -/
theorem cpu_delta_self (c : cpu_info) : cpu_delta c c = zero_cpu := by
  simp [cpu_delta, zero_cpu, sub64_self]

/-- With a kernel format of 4 or 6, `get_kernel_stats` returns the state with
the two folded tables. -/
theorem get_kernel_stats_ok (kernel : Nat) (io : List stat_scan) (cpu : List cpu_scan)
    (st : state) (hk : kernel = 4 ∨ kernel = 6) :
    get_kernel_stats kernel io cpu st =
      .ok { st with
            new_blkio := io.foldl (get_kernel_stats_line st.partition) st.new_blkio,
            new_cpu := cpu.foldl get_kernel_stats_cpu_line st.new_cpu } :=
  if_pos hk

/-- With a kernel format of 4 or 6, `process` returns: it prints the rows and
saves the current generation. -/
theorem process_ok (ncpu HZ kernel : Nat) (f : flags) (lineno : Int)
    (io : List stat_scan) (cpu : List cpu_scan) (st : state) (hk : kernel = 4 ∨ kernel = 6) :
    process ncpu HZ kernel f lineno io cpu st =
      .ok ({ header := decide (lineno = 0) || f.print_disk_extended,
             partitions := print_partition_stats ncpu HZ kernel f
               { st with
                 new_blkio := io.foldl (get_kernel_stats_line st.partition) st.new_blkio,
                 new_cpu := cpu.foldl get_kernel_stats_cpu_line st.new_cpu },
             cpu := if f.print_disk_extended = false ∧ f.print_cpu = true then
                 some (print_cpu_stats kernel
                   (cpu.foldl get_kernel_stats_cpu_line st.new_cpu) st.old_cpu)
               else none },
           save_old_stats
             { st with
               new_blkio := io.foldl (get_kernel_stats_line st.partition) st.new_blkio,
               new_cpu := cpu.foldl get_kernel_stats_cpu_line st.new_cpu }) := by
  unfold process
  rw [get_kernel_stats_ok kernel io cpu st hk]

/-- The number of rows of `print_partition_stats` is `n_partitions`. -/
theorem print_partition_stats_length (ncpu HZ kernel : Nat) (f : flags) (st : state) :
    (print_partition_stats ncpu HZ kernel f st).length = st.partition.length := by
  simp [print_partition_stats]

/-- A fold of steps each of which makes a component constant or leaves it
alone makes the component constant or leaves it alone. -/
theorem foldl_const_or_id {σ α β : Type} (π : σ → β) (step : σ → α → σ) :
    ∀ lines : List α,
      (∀ l ∈ lines, (∃ v, ∀ s, π (step s l) = v) ∨ (∀ s, π (step s l) = π s)) →
      (∃ v, ∀ s, π (lines.foldl step s) = v) ∨ (∀ s, π (lines.foldl step s) = π s) := by
  intro lines
  induction lines with
  | nil => intro _; exact Or.inr (fun _ => rfl)
  | cons l rest ih =>
    intro h
    rcases ih (fun m hm => h m (List.mem_cons_of_mem _ hm)) with ⟨v, hv⟩ | hid
    · exact Or.inl ⟨v, fun s => by rw [List.foldl_cons]; exact hv _⟩
    · rcases h l (List.mem_cons_self _ _) with ⟨v, hv⟩ | hl
      · exact Or.inl ⟨v, fun s => by rw [List.foldl_cons, hid]; exact hv s⟩
      · exact Or.inr (fun s => by rw [List.foldl_cons, hid]; exact hl s)

/-- Folding the same lines a second time does not change a component that
every step makes constant or leaves alone. -/
theorem foldl_twice {σ α β : Type} (π : σ → β) (step : σ → α → σ) (lines : List α)
    (h : ∀ l ∈ lines, (∃ v, ∀ s, π (step s l) = v) ∨ (∀ s, π (step s l) = π s)) (s : σ) :
    π (lines.foldl step (lines.foldl step s)) = π (lines.foldl step s) := by
  rcases foldl_const_or_id π step lines h with ⟨v, hv⟩ | hid
  · rw [hv, hv]
  · rw [hid]

/-- The locate loop either stores the record at an index fixed by the table,
or stores nothing. -/
theorem locate_store_shape (mj mn : Nat) (b : blkio_info) :
    ∀ (part : List part_info) (k : Nat),
      (∃ i, ∀ nb, locate_store mj mn b part k nb = Function.update nb i b) ∨
      (∀ nb, locate_store mj mn b part k nb = nb) := by
  intro part
  induction part with
  | nil => intro k; exact Or.inr (fun _ => rfl)
  | cons x rest ih =>
    intro k
    by_cases hx : x.major = mj ∧ x.minor = mn
    · exact Or.inl ⟨k, fun nb => by simp [locate_store, hx]⟩
    · rcases ih (k + 1) with ⟨i, hi⟩ | hid
      · exact Or.inl ⟨i, fun nb => by simp only [locate_store, hx, if_false]; exact hi nb⟩
      · exact Or.inr (fun nb => by simp only [locate_store, hx, if_false]; exact hid nb)

/-- One line of the I/O file either stores its record (remapped when it has six
items) at an index fixed by the table, or stores nothing. -/
theorem get_kernel_stats_line_shape (part : List part_info) (l : stat_scan) :
    (∃ i, ∀ nb, get_kernel_stats_line part nb l =
        Function.update nb i (if l.items = 6 then remap_partition l.blkio else l.blkio)) ∨
    (∀ nb, get_kernel_stats_line part nb l = nb) := by
  by_cases h : (if l.items = 6 then (12 : Int) else l.items) = 12
  · rcases locate_store_shape l.major l.minor
        (if l.items = 6 then remap_partition l.blkio else l.blkio) part 0 with ⟨i, hi⟩ | hid
    · exact Or.inl ⟨i, fun nb => by
        unfold get_kernel_stats_line; simp only [h, if_true]; exact hi nb⟩
    · exact Or.inr (fun nb => by
        unfold get_kernel_stats_line; simp only [h, if_true]; exact hid nb)
  · exact Or.inr (fun nb => by unfold get_kernel_stats_line; simp only [h, if_false])

/-- One line of the I/O file makes the record of an index constant or leaves it
alone. -/
theorem get_kernel_stats_line_const_or_id (part : List part_info) (l : stat_scan) (p : Nat) :
    (∃ v, ∀ nb : Nat → blkio_info, get_kernel_stats_line part nb l p = v) ∨
    (∀ nb : Nat → blkio_info, get_kernel_stats_line part nb l p = nb p) := by
  rcases get_kernel_stats_line_shape part l with ⟨i, hi⟩ | hid
  · by_cases hip : p = i
    · subst hip
      exact Or.inl ⟨_, fun nb => by rw [hi nb, Function.update_same]⟩
    · exact Or.inr (fun nb => by rw [hi nb, Function.update_noteq hip])
  · exact Or.inr (fun nb => by rw [hid nb])

/-- Reading the same I/O lines a second time leaves every record as it is. -/
theorem foldl_get_kernel_stats_line_twice (part : List part_info) (io : List stat_scan)
    (nb : Nat → blkio_info) (p : Nat) :
    io.foldl (get_kernel_stats_line part) (io.foldl (get_kernel_stats_line part) nb) p =
      io.foldl (get_kernel_stats_line part) nb p :=
  foldl_twice (fun nb : Nat → blkio_info => nb p) (get_kernel_stats_line part) io
    (fun l _ => get_kernel_stats_line_const_or_id part l p) nb

/-- A record changed by the lines of the I/O file belongs to a table entry
named by a line with 6 or 12 items. -/
theorem foldl_get_kernel_stats_line_changed (part : List part_info) (io : List stat_scan)
    (nb : Nat → blkio_info) (p : Nat)
    (h : io.foldl (get_kernel_stats_line part) nb p ≠ nb p) :
    ∃ l ∈ io, (l.items = 6 ∨ l.items = 12) ∧
      ∃ e, part[p]? = some e ∧ e.major = l.major ∧ e.minor = l.minor := by
  by_contra hno
  apply h
  apply foldl_get_kernel_stats_line_frame part p io nb
  intro m hm
  by_cases hi : m.items = 6 ∨ m.items = 12
  · refine Or.inr (fun e he hmatch => hno ⟨m, hm, hi, e, he, hmatch.1, hmatch.2⟩)
  · exact Or.inl ⟨fun h6 => hi (Or.inl h6), fun h12 => hi (Or.inr h12)⟩

/-- A line of the CPU file that converts at least one value when it begins with
`cpu ` makes each field of `new_cpu` constant or leaves it alone. -/
theorem get_kernel_stats_cpu_line_const_or_id (l : cpu_scan)
    (h : l.buffer.data.take 4 = ['c', 'p', 'u', ' '] → 1 ≤ l.items) :
    ((∃ v, ∀ c, (get_kernel_stats_cpu_line c l).user = v) ∨
      (∀ c, (get_kernel_stats_cpu_line c l).user = c.user)) ∧
    ((∃ v, ∀ c, (get_kernel_stats_cpu_line c l).system = v) ∨
      (∀ c, (get_kernel_stats_cpu_line c l).system = c.system)) ∧
    ((∃ v, ∀ c, (get_kernel_stats_cpu_line c l).idle = v) ∨
      (∀ c, (get_kernel_stats_cpu_line c l).idle = c.idle)) ∧
    ((∃ v, ∀ c, (get_kernel_stats_cpu_line c l).iowait = v) ∨
      (∀ c, (get_kernel_stats_cpu_line c l).iowait = c.iowait)) := by
  by_cases hm : l.buffer.data.take 4 = ['c', 'p', 'u', ' ']
  · have h1 := h hm
    refine ⟨Or.inl ⟨add64 l.user l.nice, fun c => ?_⟩, ?_, ?_, ?_⟩
    · unfold get_kernel_stats_cpu_line
      rw [if_pos hm]
      simp only [h1, if_true]
      split_ifs <;> rfl
    · by_cases h3 : 3 ≤ l.items
      · refine Or.inl ⟨if l.items = 7 then add64 l.system (add64 l.irq l.softirq)
          else l.system, fun c => ?_⟩
        unfold get_kernel_stats_cpu_line
        rw [if_pos hm]
        simp only [h3, if_true]
        split_ifs <;> rfl
      · refine Or.inr (fun c => ?_)
        have h7 : l.items ≠ 7 := by omega
        have h4 : l.items ≠ 4 := by omega
        unfold get_kernel_stats_cpu_line
        rw [if_pos hm]
        simp only [h3, h7, h4, if_false]
    · by_cases h4 : 4 ≤ l.items
      · refine Or.inl ⟨l.idle, fun c => ?_⟩
        unfold get_kernel_stats_cpu_line
        rw [if_pos hm]
        simp only [h4, if_true]
        split_ifs <;> rfl
      · refine Or.inr (fun c => ?_)
        have h7 : l.items ≠ 7 := by omega
        have h4' : l.items ≠ 4 := by omega
        unfold get_kernel_stats_cpu_line
        rw [if_pos hm]
        simp only [h4, h7, h4', if_false]
    · by_cases h4 : l.items = 4
      · refine Or.inl ⟨0, fun c => ?_⟩
        unfold get_kernel_stats_cpu_line
        rw [if_pos hm]
        simp [h4]
      · by_cases h5 : 5 ≤ l.items
        · refine Or.inl ⟨l.iowait, fun c => ?_⟩
          unfold get_kernel_stats_cpu_line
          rw [if_pos hm]
          simp only [h5, h4, if_true, if_false]
          split_ifs <;> rfl
        · refine Or.inr (fun c => ?_)
          have h7 : l.items ≠ 7 := by omega
          unfold get_kernel_stats_cpu_line
          rw [if_pos hm]
          simp only [h5, h4, h7, if_false]
  · refine ⟨Or.inr (fun c => ?_), Or.inr (fun c => ?_), Or.inr (fun c => ?_),
      Or.inr (fun c => ?_)⟩ <;>
    · unfold get_kernel_stats_cpu_line
      rw [if_neg hm]

/-- Reading the same CPU lines a second time leaves `new_cpu` as it is, when
every line beginning with `cpu ` converts at least one value. -/
theorem foldl_get_kernel_stats_cpu_line_twice (cpu : List cpu_scan) (c : cpu_info)
    (h : ∀ l ∈ cpu, l.buffer.data.take 4 = ['c', 'p', 'u', ' '] → 1 ≤ l.items) :
    cpu.foldl get_kernel_stats_cpu_line (cpu.foldl get_kernel_stats_cpu_line c) =
      cpu.foldl get_kernel_stats_cpu_line c := by
  have hu := foldl_twice (fun c : cpu_info => c.user) get_kernel_stats_cpu_line cpu
    (fun l hl => (get_kernel_stats_cpu_line_const_or_id l (h l hl)).1) c
  have hs := foldl_twice (fun c : cpu_info => c.system) get_kernel_stats_cpu_line cpu
    (fun l hl => (get_kernel_stats_cpu_line_const_or_id l (h l hl)).2.1) c
  have hi := foldl_twice (fun c : cpu_info => c.idle) get_kernel_stats_cpu_line cpu
    (fun l hl => (get_kernel_stats_cpu_line_const_or_id l (h l hl)).2.2.1) c
  have hw := foldl_twice (fun c : cpu_info => c.iowait) get_kernel_stats_cpu_line cpu
    (fun l hl => (get_kernel_stats_cpu_line_const_or_id l (h l hl)).2.2.2) c
  have ext : ∀ a b : cpu_info, a.user = b.user → a.system = b.system → a.idle = b.idle →
      a.iowait = b.iowait → a = b := by
    intro a b h1 h2 h3 h4
    cases a; cases b; simp_all
  exact ext _ _ hu hs hi hw

/-- The elapsed time is 0 when the two tick totals are equal, and it is never
negative. -/
theorem deltams_zero_of_totals_eq (ncpu HZ : Nat) (c o : cpu_info) :
    0 ≤ deltams ncpu HZ c o ∧
    (add64 (add64 (add64 c.user c.system) c.idle) c.iowait =
        add64 (add64 (add64 o.user o.system) o.idle) o.iowait →
      deltams ncpu HZ c o = 0) := by
  constructor
  · unfold deltams
    positivity
  · intro h
    unfold deltams
    rw [h, sub64_self]
    simp

/-! ## Evaluation of the example cycle -/

/-- The first read of the example lines stores the scenario counters for
`sda`. -/
theorem example_first_read_blkio :
    [sda_stat_line].foldl (get_kernel_stats_line [sda]) (initial_state [sda]).new_blkio 0
      = scenario_blkio := by
  decide

/-- The first read of the example lines stores 300, 100, 600 and 0 ticks. -/
theorem example_first_read_cpu :
    [cpu_stat_line].foldl get_kernel_stats_cpu_line (initial_state [sda]).new_cpu
      = { user := 300, system := 100, idle := 600, iowait := 0 } := by
  decide

/-- The elapsed time of the example: 1000 ticks on one CPU at 100 ticks per
second are 10000 ms. -/
theorem example_deltams :
    deltams 1 100 { user := 300, system := 100, idle := 600, iowait := 0 } zero_cpu
      = 10000 := by
  have h : sub64 (add64 (add64 (add64 300 100) 600) 0) (add64 (add64 (add64 0 0) 0) 0)
      = 1000 := by decide
  simp only [deltams, zero_cpu, h]
  norm_num

/-- The CPU columns of the example: 30, 10, 0 and 60 percent. -/
theorem example_cpu_columns :
    print_cpu_stats 6 { user := 300, system := 100, idle := 600, iowait := 0 } zero_cpu
      = [30, 10, 0, 60] := by
  have h : cpu_delta { user := 300, system := 100, idle := 600, iowait := 0 } zero_cpu
      = { user := 300, system := 100, idle := 600, iowait := 0 } := by decide
  have h2 : add64 (add64 (add64 300 100) 600) 0 = 1000 := by decide
  simp only [print_cpu_stats, cpu_percentages, h, cpu_total, h2]
  norm_num

/-- The device columns of the example in the basic mode: 150 KB/s, 15 I/Os per
second, 20 ms service time. -/
theorem example_partition_columns :
    partition_columns no_option_flags 10000 (partition_stats 10000 scenario_blkio zero_blkio)
      = [150, 15, 20] := by
  have hd : blkio_delta scenario_blkio zero_blkio = scenario_blkio := by decide
  have h1 : add32 scenario_blkio.rd_ios scenario_blkio.wr_ios = 150 := by decide
  have h2 : add64 scenario_blkio.rd_sectors scenario_blkio.wr_sectors = 3000 := by decide
  have h3 : scenario_blkio.ticks = 3000 := by decide
  simp only [partition_columns, no_option_flags, default_flags, partition_stats,
    partition_stats_div, hd, h1, h2, h3, PER_SEC]
  norm_num

/-- The end-to-end scenario at 2000 ms: 150 I/Os, 1500 KB, 75 I/Os and 750 KB
per second, 20 ms service time, busy clamped to 100. -/
theorem example_scenario_stats :
    (partition_stats 2000 scenario_blkio zero_blkio).n_ios = 150 ∧
    (partition_stats 2000 scenario_blkio zero_blkio).n_kbytes = 1500 ∧
    PER_SEC 2000 (partition_stats 2000 scenario_blkio zero_blkio).n_ios = 75 ∧
    PER_SEC 2000 (partition_stats 2000 scenario_blkio zero_blkio).n_kbytes = 750 ∧
    (partition_stats 2000 scenario_blkio zero_blkio).svc_t = 20 ∧
    (partition_stats 2000 scenario_blkio zero_blkio).busy = 100 := by
  have hd : blkio_delta scenario_blkio zero_blkio = scenario_blkio := by decide
  have h1 : add32 scenario_blkio.rd_ios scenario_blkio.wr_ios = 150 := by decide
  have h2 : add64 scenario_blkio.rd_sectors scenario_blkio.wr_sectors = 3000 := by decide
  have h3 : scenario_blkio.ticks = 3000 := by decide
  simp only [partition_stats, partition_stats_div, hd, h1, h2, h3, PER_SEC]
  norm_num

/-! ## Lemmas on the parametrised arithmetic -/

/-- With the arithmetic of the rationals, the parametrised percentages are the
percentages in exact arithmetic. -/
theorem cpu_percentages_fp_exact (c o : cpu_info) :
    cpu_percentages_fp (fun n => (n : ℚ)) (fun x y => x / y) c o = cpu_percentages c o :=
  rfl

/-- With the arithmetic of the rationals, the parametrised CPU columns are the
columns in exact arithmetic. -/
theorem print_cpu_stats_fp_exact (kernel : Nat) (c o : cpu_info) :
    print_cpu_stats_fp (fun n => (n : ℚ)) (fun x y => x / y) kernel c o
      = print_cpu_stats kernel c o :=
  rfl

/-- With the division of the rationals, the parametrised columns are the
columns in exact arithmetic. -/
theorem partition_columns_div_exact (f : flags) (dms : ℚ) (s : part_stats) :
    partition_columns_div (fun x y => x / y) f dms s = partition_columns f dms s :=
  rfl

/-- With the division of the rationals, the parametrised output loop is
`print_partition_stats` in exact arithmetic. -/
theorem print_partition_stats_div_exact (ncpu HZ kernel : Nat) (f : flags) (st : state) :
    print_partition_stats_div (fun x y => x / y) ncpu HZ kernel f st
      = print_partition_stats ncpu HZ kernel f st :=
  rfl

/-- With the division of the rationals, the parametrised `process` is `process`
in exact arithmetic. -/
theorem process_div_exact (ncpu HZ kernel : Nat) (f : flags) (lineno : Int)
    (io : List stat_scan) (cpu : List cpu_scan) (st : state) :
    process_div (fun x y => x / y) ncpu HZ kernel f lineno io cpu st
      = process ncpu HZ kernel f lineno io cpu st :=
  rfl

/-- With a kernel format of 4 or 6, the parametrised `process` returns. -/
theorem process_div_ok (dv : ℚ → ℚ → ℚ) (ncpu HZ kernel : Nat) (f : flags) (lineno : Int)
    (io : List stat_scan) (cpu : List cpu_scan) (st : state) (hk : kernel = 4 ∨ kernel = 6) :
    process_div dv ncpu HZ kernel f lineno io cpu st =
      .ok ({ header := decide (lineno = 0) || f.print_disk_extended,
             partitions := print_partition_stats_div dv ncpu HZ kernel f
               { st with
                 new_blkio := io.foldl (get_kernel_stats_line st.partition) st.new_blkio,
                 new_cpu := cpu.foldl get_kernel_stats_cpu_line st.new_cpu },
             cpu := if f.print_disk_extended = false ∧ f.print_cpu = true then
                 some (print_cpu_stats_fp (fun n => (n : ℚ)) dv kernel
                   (cpu.foldl get_kernel_stats_cpu_line st.new_cpu) st.old_cpu)
               else none },
           save_old_stats
             { st with
               new_blkio := io.foldl (get_kernel_stats_line st.partition) st.new_blkio,
               new_cpu := cpu.foldl get_kernel_stats_cpu_line st.new_cpu }) := by
  unfold process_div
  rw [get_kernel_stats_ok kernel io cpu st hk]

/-- The number of rows of the parametrised output loop is `n_partitions`. -/
theorem print_partition_stats_div_length (dv : ℚ → ℚ → ℚ) (ncpu HZ kernel : Nat)
    (f : flags) (st : state) :
    (print_partition_stats_div dv ncpu HZ kernel f st).length = st.partition.length := by
  simp [print_partition_stats_div]

/-- The row of the parametrised output loop for a registered index. -/
theorem print_partition_stats_div_row (dv : ℚ → ℚ → ℚ) (ncpu HZ kernel : Nat) (f : flags)
    (st : state) (p : Nat) (hp : p < st.partition.length) :
    (print_partition_stats_div dv ncpu HZ kernel f st)[p]? =
      some (partition_columns_div dv f (deltams ncpu HZ st.new_cpu st.old_cpu)
          (partition_stats_div dv (deltams ncpu HZ st.new_cpu st.old_cpu)
            (st.new_blkio p) (st.old_blkio p)) ++
        (if f.print_disk_extended = true ∧ p = 0 ∧ f.print_cpu = true then
          print_cpu_stats_fp (fun n => (n : ℚ)) dv kernel st.new_cpu st.old_cpu
        else [])) := by
  unfold print_partition_stats_div
  simp [hp]

/-- The binary exponent of a positive rational between two consecutive powers
of 2. -/
theorem log_eq_of_bounds {q : ℚ} {e : Int} (h0 : 0 < q) (h1 : (2 : ℚ) ^ e ≤ q)
    (h2 : q < (2 : ℚ) ^ (e + 1)) : Int.log 2 q = e := by
  have a : e ≤ Int.log 2 q :=
    (Int.zpow_le_iff_le_log (by norm_num) h0).mp (by exact_mod_cast h1)
  have b : Int.log 2 q < e + 1 :=
    (Int.lt_zpow_iff_log_lt (by norm_num) h0).mp (by exact_mod_cast h2)
  omega

/-- The rounding of a positive rational with binary exponent `e` whose scaled
value rounds to the integer `m`. -/
theorem round_binary64_eq {q : ℚ} (e : Int) (m : Int) (h0 : 0 < q) (h1 : (2 : ℚ) ^ e ≤ q)
    (h2 : q < (2 : ℚ) ^ (e + 1))
    (hm : round_half_even (q / (2 : ℚ) ^ (e - 52)) = m) :
    round_binary64 q = (m : ℚ) * (2 : ℚ) ^ (e - 52) := by
  unfold round_binary64
  rw [if_neg (ne_of_gt h0), abs_of_pos h0, log_eq_of_bounds h0 h1 h2, hm]

/-- A value less than half above an integer rounds down to it. -/
theorem round_half_even_below {t : ℚ} (f : Int) (h1 : (f : ℚ) ≤ t)
    (h2 : t < (f : ℚ) + 1 / 2) : round_half_even t = f := by
  have hf : ⌊t⌋ = f := by
    rw [Int.floor_eq_iff]
    constructor
    · exact h1
    · linarith
  unfold round_half_even
  rw [hf, if_pos (by linarith)]

/-- A value more than half above an integer rounds up to the next one. -/
theorem round_half_even_above {t : ℚ} (f : Int) (h1 : (f : ℚ) + 1 / 2 < t)
    (h2 : t < (f : ℚ) + 1) : round_half_even t = f + 1 := by
  have hf : ⌊t⌋ = f := by
    rw [Int.floor_eq_iff]
    constructor
    · linarith
    · exact h2
  unfold round_half_even
  rw [hf, if_neg (by linarith), if_pos (by linarith)]

/-- The integer 57 is a binary64 number. -/
theorem conv_binary64_57 : conv_binary64 57 = 57 := by
  unfold conv_binary64
  rw [round_binary64_eq 5 (57 * 2 ^ 47) (by norm_num) (by norm_num) (by norm_num)
    (round_half_even_below _ (by norm_num) (by norm_num))]
  norm_num

/-- In binary64, `57 / 100.0` is `5134103575202365 / 2^53`. -/
theorem div_binary64_57_100 : div_binary64 57 100 = 5134103575202365 / 2 ^ 53 := by
  unfold div_binary64
  rw [round_binary64_eq (-1) 5134103575202365 (by norm_num) (by norm_num) (by norm_num)
    (round_half_even_below _ (by norm_num) (by norm_num))]
  norm_num

/-- In binary64, `57 / (57 / 100.0)` is `100 + 2^(-46)`. -/
theorem div_binary64_57_total :
    div_binary64 57 (div_binary64 57 100) = 7036874417766401 / 2 ^ 46 := by
  rw [div_binary64_57_100]
  unfold div_binary64
  rw [round_binary64_eq 6 7036874417766401 (by norm_num) (by norm_num) (by norm_num)
    (round_half_even_above 7036874417766400 (by norm_num) (by norm_num))]
  norm_num


/-- C1 (the code at the failing input): for a device whose two sector counters
both advanced by `2^63` the two differences are `2^63`, their sum formed in
`unsigned long long` is `0`, and `n_kbytes` is `0` instead of `2^63`, half the
sum of the two differences. -/
theorem C1_n_kbytes_sum_wraps :
    (blkio_delta huge_sectors_blkio zero_blkio).rd_sectors = 2 ^ 63 ∧
    (blkio_delta huge_sectors_blkio zero_blkio).wr_sectors = 2 ^ 63 ∧
    (partition_stats 1000 huge_sectors_blkio zero_blkio).n_kbytes = 0 ∧
    (partition_stats 1000 huge_sectors_blkio zero_blkio).n_kbytes ≠
      (((blkio_delta huge_sectors_blkio zero_blkio).rd_sectors : ℚ) +
        ((blkio_delta huge_sectors_blkio zero_blkio).wr_sectors : ℚ)) / 2 := by
  have h1 : (blkio_delta huge_sectors_blkio zero_blkio).rd_sectors = 2 ^ 63 := by decide
  have h2 : (blkio_delta huge_sectors_blkio zero_blkio).wr_sectors = 2 ^ 63 := by decide
  have h3 : (partition_stats 1000 huge_sectors_blkio zero_blkio).n_kbytes = 0 := by
    have h : add64 (blkio_delta huge_sectors_blkio zero_blkio).rd_sectors
        (blkio_delta huge_sectors_blkio zero_blkio).wr_sectors = 0 := by decide
    simp only [partition_stats, partition_stats_div, h]
    norm_num
  refine ⟨h1, h2, h3, ?_⟩
  rw [h3, h1, h2]
  norm_num


/-- C2: for every pair of records and every `deltams > 0` the busy percentage is
the minimum of 100 and `100 * delta ticks / deltams`, lies between 0 and 100,
and is exactly 100 when the tick difference exceeds the elapsed milliseconds. -/
theorem C2_busy_clamped (dms : ℚ) (n o : blkio_info) (hd : 0 < dms) :
    (partition_stats dms n o).busy
        = min 100 (100 * ((blkio_delta n o).ticks : ℚ) / dms) ∧
    0 ≤ (partition_stats dms n o).busy ∧
    (partition_stats dms n o).busy ≤ 100 ∧
    (dms < ((blkio_delta n o).ticks : ℚ) → (partition_stats dms n o).busy = 100) := by
  have hb : (partition_stats dms n o).busy
      = (if 100 * ((blkio_delta n o).ticks : ℚ) / dms > 100 then 100
          else 100 * ((blkio_delta n o).ticks : ℚ) / dms) := rfl
  have h0 : (0 : ℚ) ≤ 100 * ((blkio_delta n o).ticks : ℚ) / dms := by positivity
  refine ⟨?_, ?_, ?_, ?_⟩
  · rw [hb]
    split_ifs with h
    · exact (min_eq_left (le_of_lt h)).symm
    · exact (min_eq_right (not_lt.mp h)).symm
  · rw [hb]
    split_ifs with h
    · norm_num
    · exact h0
  · rw [hb]
    split_ifs with h
    · exact le_refl _
    · exact not_lt.mp h
  · intro ht
    rw [hb, if_pos]
    rw [gt_iff_lt, lt_div_iff₀ hd]
    linarith

/-- C2 witness: a tick difference of 3000 in 2000 ms is clamped to 100. -/
theorem C2_busy_clamped_witness :
    (0 : ℚ) < 2000 ∧ (partition_stats 2000 scenario_blkio zero_blkio).busy = 100 :=
  ⟨by norm_num,
   (C2_busy_clamped 2000 scenario_blkio zero_blkio (by norm_num)).2.2.2
     (by
      have h : (blkio_delta scenario_blkio zero_blkio).ticks = 3000 := by decide
      rw [h]; norm_num)⟩

/-- C3: when the computed `n_ios` is 0, `size`, `wait` and `svc_t` are exactly 0
for every value of the other differences and of `deltams`, and for every
meaning `dv` given to the division of doubles: no quotient by `n_ios` enters
the result. -/
theorem C3_zero_ios_averages (dv : ℚ → ℚ → ℚ) (dms : ℚ) (n o : blkio_info)
    (h : (partition_stats_div dv dms n o).n_ios = 0) :
    (partition_stats_div dv dms n o).size = 0 ∧
    (partition_stats_div dv dms n o).wait = 0 ∧
    (partition_stats_div dv dms n o).svc_t = 0 ∧
    (partition_stats dms n o).size = 0 ∧
    (partition_stats dms n o).wait = 0 ∧
    (partition_stats dms n o).svc_t = 0 := by
  have h' : ((add32 (blkio_delta n o).rd_ios (blkio_delta n o).wr_ios : Nat) : ℚ) = 0 := h
  simp only [partition_stats, partition_stats_div]
  simp [h']

/-- C3 witness: a device with sector and tick activity but no completed I/O. -/
theorem C3_zero_ios_averages_witness :
    (partition_stats 2000 { zero_blkio with rd_sectors := 8, ticks := 5 } zero_blkio).n_ios = 0 ∧
    (partition_stats 2000 { zero_blkio with rd_sectors := 8, ticks := 5 } zero_blkio).size = 0 ∧
    (partition_stats 2000 { zero_blkio with rd_sectors := 8, ticks := 5 } zero_blkio).wait = 0 ∧
    (partition_stats 2000 { zero_blkio with rd_sectors := 8, ticks := 5 } zero_blkio).svc_t = 0 :=
  ⟨by decide,
   (C3_zero_ios_averages (fun x y => x / y) 2000
     { zero_blkio with rd_sectors := 8, ticks := 5 } zero_blkio (by decide)).2.2.2⟩

/-- C4 (amended): with every counter non-decreasing, the current counters summing
to less than `2^64` and a non-zero total difference, the four percentages of
`print_cpu_stats`, taken in exact arithmetic, are `100 * delta / total`, lie in
`[0, 100]` and add up to exactly 100. -/
theorem C4_cpu_percentages (c o : cpu_info)
    (hu : o.user ≤ c.user) (hs : o.system ≤ c.system) (hi : o.idle ≤ c.idle)
    (hw : o.iowait ≤ c.iowait)
    (hsum : c.user + c.system + c.idle + c.iowait < 2 ^ 64)
    (hne : (c.user - o.user) + (c.system - o.system) + (c.idle - o.idle)
        + (c.iowait - o.iowait) ≠ 0) :
    let total : ℚ := (((c.user - o.user) + (c.system - o.system) + (c.idle - o.idle)
        + (c.iowait - o.iowait) : Nat) : ℚ)
    let p := cpu_percentages c o
    p.user = 100 * ((c.user - o.user : Nat) : ℚ) / total ∧
    p.system = 100 * ((c.system - o.system : Nat) : ℚ) / total ∧
    p.iowait = 100 * ((c.iowait - o.iowait : Nat) : ℚ) / total ∧
    p.idle = 100 * ((c.idle - o.idle : Nat) : ℚ) / total ∧
    (0 ≤ p.user ∧ p.user ≤ 100) ∧ (0 ≤ p.system ∧ p.system ≤ 100) ∧
    (0 ≤ p.iowait ∧ p.iowait ≤ 100) ∧ (0 ≤ p.idle ∧ p.idle ≤ 100) ∧
    p.user + p.system + p.iowait + p.idle = 100 ∧
    print_cpu_stats 6 c o = [p.user, p.system, p.iowait, p.idle] ∧
    cpu_percentages_fp (fun n => (n : ℚ)) (fun x y => x / y) c o = p := by
  intro total p
  obtain ⟨hd, ht⟩ := cpu_delta_exact c o hu hs hi hw hsum
  have htpos : (0 : ℚ) < total := by
    have : 0 < (c.user - o.user) + (c.system - o.system) + (c.idle - o.idle)
        + (c.iowait - o.iowait) := Nat.pos_of_ne_zero hne
    exact Nat.cast_pos.mpr this
  have htne : total ≠ 0 := ne_of_gt htpos
  have hsplit : total = ((c.user - o.user : Nat) : ℚ) + ((c.system - o.system : Nat) : ℚ)
      + ((c.idle - o.idle : Nat) : ℚ) + ((c.iowait - o.iowait : Nat) : ℚ) := by
    simp only [total]; push_cast; ring
  have key : ∀ x : Nat, (x : ℚ) / (total / 100) = 100 * (x : ℚ) / total := by
    intro x; field_simp; ring
  have pu : p.user = 100 * ((c.user - o.user : Nat) : ℚ) / total := by
    show ((cpu_delta c o).user : ℚ) / cpu_total (cpu_delta c o) = _
    rw [ht, hd]; exact key _
  have ps : p.system = 100 * ((c.system - o.system : Nat) : ℚ) / total := by
    show ((cpu_delta c o).system : ℚ) / cpu_total (cpu_delta c o) = _
    rw [ht, hd]; exact key _
  have pw : p.iowait = 100 * ((c.iowait - o.iowait : Nat) : ℚ) / total := by
    show ((cpu_delta c o).iowait : ℚ) / cpu_total (cpu_delta c o) = _
    rw [ht, hd]; exact key _
  have pi : p.idle = 100 * ((c.idle - o.idle : Nat) : ℚ) / total := by
    show ((cpu_delta c o).idle : ℚ) / cpu_total (cpu_delta c o) = _
    rw [ht, hd]; exact key _
  have nn : ∀ x : Nat, (0 : ℚ) ≤ (x : ℚ) := fun x => Nat.cast_nonneg x
  have bound : ∀ x : ℚ, 0 ≤ x → x ≤ total → 0 ≤ 100 * x / total ∧ 100 * x / total ≤ 100 := by
    intro x hx hxt
    refine ⟨by positivity, ?_⟩
    rw [div_le_iff₀ htpos]; linarith
  have nu := nn (c.user - o.user)
  have ns := nn (c.system - o.system)
  have ni := nn (c.idle - o.idle)
  have nw := nn (c.iowait - o.iowait)
  refine ⟨pu, ps, pw, pi, ?_, ?_, ?_, ?_, ?_, ?_, rfl⟩
  · rw [pu]; exact bound _ nu (by rw [hsplit]; linarith)
  · rw [ps]; exact bound _ ns (by rw [hsplit]; linarith)
  · rw [pw]; exact bound _ nw (by rw [hsplit]; linarith)
  · rw [pi]; exact bound _ ni (by rw [hsplit]; linarith)
  · rw [pu, ps, pw, pi]
    have hsum4 : 100 * ((c.user - o.user : Nat) : ℚ) / total
        + 100 * ((c.system - o.system : Nat) : ℚ) / total
        + 100 * ((c.iowait - o.iowait : Nat) : ℚ) / total
        + 100 * ((c.idle - o.idle : Nat) : ℚ) / total
        = 100 * (((c.user - o.user : Nat) : ℚ) + ((c.system - o.system : Nat) : ℚ)
          + ((c.idle - o.idle : Nat) : ℚ) + ((c.iowait - o.iowait : Nat) : ℚ)) / total := by
      ring
    rw [hsum4, ← hsplit, mul_div_assoc, div_self htne, mul_one]
  · simp [print_cpu_stats, p]

/-- C4 (as stated, refuted): with the previous counters zero and the current
counters 0, 0, 57 idle, 0, the hypotheses hold, and in binary64 arithmetic the
idle percentage `57 / (57 / 100.0)` is `100 + 2^(-46)`, above 100. -/
theorem C4_percentage_exceeds_100 :
    zero_cpu.user ≤ idle_57_cpu.user ∧ zero_cpu.system ≤ idle_57_cpu.system ∧
    zero_cpu.idle ≤ idle_57_cpu.idle ∧ zero_cpu.iowait ≤ idle_57_cpu.iowait ∧
    idle_57_cpu.user + idle_57_cpu.system + idle_57_cpu.idle + idle_57_cpu.iowait < 2 ^ 64 ∧
    (idle_57_cpu.user - zero_cpu.user) + (idle_57_cpu.system - zero_cpu.system)
      + (idle_57_cpu.idle - zero_cpu.idle) + (idle_57_cpu.iowait - zero_cpu.iowait) ≠ 0 ∧
    (cpu_percentages_fp conv_binary64 div_binary64 idle_57_cpu zero_cpu).idle
      = 7036874417766401 / 2 ^ 46 ∧
    (100 : ℚ) < (cpu_percentages_fp conv_binary64 div_binary64 idle_57_cpu zero_cpu).idle ∧
    ¬ ((cpu_percentages_fp conv_binary64 div_binary64 idle_57_cpu zero_cpu).idle ≤ 100) := by
  have hd : cpu_delta idle_57_cpu zero_cpu = idle_57_cpu := by decide
  have hs : add64 (add64 (add64 idle_57_cpu.user idle_57_cpu.system) idle_57_cpu.idle)
      idle_57_cpu.iowait = 57 := by decide
  have hi : idle_57_cpu.idle = 57 := rfl
  have e : (cpu_percentages_fp conv_binary64 div_binary64 idle_57_cpu zero_cpu).idle
      = 7036874417766401 / 2 ^ 46 := by
    simp only [cpu_percentages_fp, hd, hs]
    rw [hi, conv_binary64_57, div_binary64_57_total]
  refine ⟨by decide, by decide, by decide, by decide, by decide, by decide, e, ?_, ?_⟩
  · rw [e]; norm_num
  · rw [e]; norm_num

/-- C4 witness: 30 user, 20 system, 40 idle and 10 iowait ticks out of 100. -/
theorem C4_cpu_percentages_witness :
    cpu_percentages ⟨130, 220, 340, 410⟩ ⟨100, 200, 300, 400⟩
      = { user := 30, system := 20, idle := 40, iowait := 10 } := by
  obtain ⟨h1, h2, h3, h4, -⟩ := C4_cpu_percentages ⟨130, 220, 340, 410⟩ ⟨100, 200, 300, 400⟩
    (by decide) (by decide) (by decide) (by decide) (by decide) (by decide)
  have e : ∀ p q : cpu_percent, p.user = q.user → p.system = q.system → p.idle = q.idle →
      p.iowait = q.iowait → p = q := by
    intro p q a b c d
    cases p; cases q; simp_all
  apply e
  · rw [h1]; norm_num
  · rw [h2]; norm_num
  · rw [h4]; norm_num
  · rw [h3]; norm_num

/-- C5: for a line on which the scan yields 6 items, the record stored for the
matching registered device (the first table entry with the major and minor
numbers of the line) has `rd_sectors` equal to the second numeric field,
`wr_sectors` equal to the fourth, and the eight other counters equal to 0; the
record is still there at the end of `get_kernel_stats` when no later parsed
line names the device. -/
theorem C5_six_item_line_remapped (part : List part_info) (nb : Nat → blkio_info)
    (l : stat_scan) (p : Nat) (d : part_info)
    (h6 : l.items = 6)
    (hp : part[p]? = some d) (hmj : d.major = l.major) (hmn : d.minor = l.minor)
    (hfirst : ∀ q e, q < p → part[q]? = some e → ¬ (e.major = l.major ∧ e.minor = l.minor)) :
    get_kernel_stats_line part nb l p =
      { rd_ios := 0, rd_merges := 0, rd_sectors := l.blkio.rd_merges, rd_ticks := 0,
        wr_ios := 0, wr_merges := 0, wr_sectors := l.blkio.rd_ticks, wr_ticks := 0,
        ticks := 0, aveq := 0 } ∧
    ∀ (kernel : Nat) (st : state) (pre post : List stat_scan) (cpulines : List cpu_scan),
      (kernel = 4 ∨ kernel = 6) → st.partition = part →
      (∀ m ∈ post, (m.items ≠ 6 ∧ m.items ≠ 12) ∨ ¬ (l.major = m.major ∧ l.minor = m.minor)) →
      ∃ st', get_kernel_stats kernel (pre ++ l :: post) cpulines st = .ok st' ∧
        st'.partition = part ∧
        st'.new_blkio p =
          { rd_ios := 0, rd_merges := 0, rd_sectors := l.blkio.rd_merges, rd_ticks := 0,
            wr_ios := 0, wr_merges := 0, wr_sectors := l.blkio.rd_ticks, wr_ticks := 0,
            ticks := 0, aveq := 0 } := by
  have hline : ∀ nb', get_kernel_stats_line part nb' l p =
      { rd_ios := 0, rd_merges := 0, rd_sectors := l.blkio.rd_merges, rd_ticks := 0,
        wr_ios := 0, wr_merges := 0, wr_sectors := l.blkio.rd_ticks, wr_ticks := 0,
        ticks := 0, aveq := 0 } := by
    intro nb'
    unfold get_kernel_stats_line
    simp only [h6, if_true]
    have := locate_store_first l.major l.minor (remap_partition l.blkio) part 0 nb' p d
      hp hmj hmn hfirst
    rw [Nat.zero_add] at this
    rw [this, remap_partition_eq]
  refine ⟨hline nb, ?_⟩
  intro kernel st pre post cpulines hk hpart hpost
  refine ⟨_, if_pos hk, hpart, ?_⟩
  show (pre ++ l :: post).foldl (get_kernel_stats_line st.partition) st.new_blkio p = _
  rw [hpart, List.foldl_append, List.foldl_cons,
    foldl_get_kernel_stats_line_frame part p post _ ?_]
  · exact hline _
  · intro m hm
    rcases hpost m hm with h | h
    · exact Or.inl h
    · refine Or.inr (fun e he => ?_)
      rw [hp] at he
      cases he
      rw [hmj, hmn]; exact h

/-- C5 witness: device 8:1 with the fields (0, 500, 0, 300); the other fields
of the scanned record are arbitrary leftovers. -/
theorem C5_six_item_line_remapped_witness :
    get_kernel_stats_line [⟨8, 0, "sda"⟩, ⟨8, 1, "sda1"⟩] (fun _ => zero_blkio)
        ⟨6, 8, 1, ⟨0, 500, 0, 300, 11, 12, 13, 14, 15, 16⟩⟩ 1 =
      { zero_blkio with rd_sectors := 500, wr_sectors := 300 } :=
  (C5_six_item_line_remapped [⟨8, 0, "sda"⟩, ⟨8, 1, "sda1"⟩] (fun _ => zero_blkio)
    ⟨6, 8, 1, ⟨0, 500, 0, 300, 11, 12, 13, 14, 15, 16⟩⟩ 1 ⟨8, 1, "sda1"⟩ rfl rfl rfl rfl
    (by
      intro q e hq he
      have hq0 : q = 0 := by omega
      subst hq0
      simp only [List.getElem?_cons_zero, Option.some.injEq] at he
      subst he
      decide)).1

/-- C6: an aggregate `cpu ` line with 7 parsed values stores user = u+n,
system = s+q+sq, idle = i, iowait = w; with exactly 4 parsed values it stores
user = u+n, system = s, idle = i, iowait = 0 (sums modulo `2^64`); this is the
record `get_kernel_stats` leaves in `new_cpu` when no later line begins with
`cpu `. -/
theorem C6_cpu_line_folding (c : cpu_info) (l : cpu_scan)
    (hcpu : l.buffer.data.take 4 = ['c', 'p', 'u', ' ']) :
    (l.items = 7 →
      get_kernel_stats_cpu_line c l =
        { user := (l.user + l.nice) % 2 ^ 64,
          system := (l.system + l.irq + l.softirq) % 2 ^ 64,
          idle := l.idle, iowait := l.iowait }) ∧
    (l.items = 4 →
      get_kernel_stats_cpu_line c l =
        { user := (l.user + l.nice) % 2 ^ 64, system := l.system, idle := l.idle,
          iowait := 0 }) ∧
    ∀ (kernel : Nat) (st : state) (iolines : List stat_scan) (pre post : List cpu_scan),
      (kernel = 4 ∨ kernel = 6) →
      (∀ m ∈ post, m.buffer.data.take 4 ≠ ['c', 'p', 'u', ' ']) →
      ∃ st', get_kernel_stats kernel iolines (pre ++ l :: post) st = .ok st' ∧
        (l.items = 7 →
          st'.new_cpu =
            { user := (l.user + l.nice) % 2 ^ 64,
              system := (l.system + l.irq + l.softirq) % 2 ^ 64,
              idle := l.idle, iowait := l.iowait }) ∧
        (l.items = 4 →
          st'.new_cpu =
            { user := (l.user + l.nice) % 2 ^ 64, system := l.system, idle := l.idle,
              iowait := 0 }) := by
  have h7 : ∀ c', l.items = 7 → get_kernel_stats_cpu_line c' l =
      { user := (l.user + l.nice) % 2 ^ 64,
        system := (l.system + l.irq + l.softirq) % 2 ^ 64,
        idle := l.idle, iowait := l.iowait } := by
    intro c' h
    unfold get_kernel_stats_cpu_line
    rw [if_pos hcpu]
    simp only [h, add64]
    norm_num
    omega
  have h4 : ∀ c', l.items = 4 → get_kernel_stats_cpu_line c' l =
      { user := (l.user + l.nice) % 2 ^ 64, system := l.system, idle := l.idle,
        iowait := 0 } := by
    intro c' h
    unfold get_kernel_stats_cpu_line
    rw [if_pos hcpu]
    simp only [h, add64]
    norm_num
  refine ⟨h7 c, h4 c, ?_⟩
  intro kernel st iolines pre post hk hpost
  refine ⟨_, if_pos hk, ?_, ?_⟩
  · intro h
    show (pre ++ l :: post).foldl get_kernel_stats_cpu_line st.new_cpu = _
    rw [List.foldl_append, List.foldl_cons, foldl_get_kernel_stats_cpu_line_skip post _ hpost]
    exact h7 _ h
  · intro h
    show (pre ++ l :: post).foldl get_kernel_stats_cpu_line st.new_cpu = _
    rw [List.foldl_append, List.foldl_cons, foldl_get_kernel_stats_cpu_line_skip post _ hpost]
    exact h4 _ h

/-- C6 witness: the seven values 1..7, and the four values 1..4 followed by
leftovers. -/
theorem C6_cpu_line_folding_witness :
    get_kernel_stats_cpu_line ⟨9, 9, 9, 9⟩ ⟨"cpu  1 2 3 4 5 6 7", 7, 1, 2, 3, 4, 5, 6, 7⟩
      = ⟨3, 16, 4, 5⟩ ∧
    get_kernel_stats_cpu_line ⟨9, 9, 9, 9⟩ ⟨"cpu  1 2 3 4", 4, 1, 2, 3, 4, 55, 66, 77⟩
      = ⟨3, 3, 4, 0⟩ :=
  ⟨(C6_cpu_line_folding ⟨9, 9, 9, 9⟩ ⟨"cpu  1 2 3 4 5 6 7", 7, 1, 2, 3, 4, 5, 6, 7⟩
      (by decide)).1 rfl,
   (C6_cpu_line_folding ⟨9, 9, 9, 9⟩ ⟨"cpu  1 2 3 4", 4, 1, 2, 3, 4, 55, 66, 77⟩
      (by decide)).2.1 rfl⟩

/-- C7: while the table is below capacity, `initialize` registers a parsed
candidate that is absent by (major, minor) if and only if, with a non-empty
filter, its name equals some filter entry, and with an empty filter, its read
count is positive and `printable` holds; a line registers nothing in every
other case. This holds for one iteration of the loop and for `initialize` run
on a stream up to the line; what is registered stays registered, every device
of the final table stems from an accepted line, and every accepted line has
its device in the final table unless the table is full. -/
theorem C7_registration_test (cap : Nat) (mj : major_numbers) (f : flags)
    (ml : List String) :
    (∀ (part : List part_info) (l : part_scan),
      l.items = 4 → part.length < cap →
      (∀ q ∈ part, ¬ (q.major = l.curr.major ∧ q.minor = l.curr.minor)) →
      ((initialize_line cap mj f ml part l = part ++ [l.curr] ↔
          (if ml = [] then 0 < l.reads ∧ printable mj f l.curr.major l.curr.minor = true
            else l.curr.name ∈ ml)) ∧
        (initialize_line cap mj f ml part l = part ++ [l.curr] ∨
          initialize_line cap mj f ml part l = part))) ∧
    (∀ (part : List part_info) (l : part_scan),
      initialize_line cap mj f ml part l ≠ part →
        initialize_line cap mj f ml part l = part ++ [l.curr] ∧ l.items = 4 ∧
        part.length < cap ∧
        (∀ q ∈ part, ¬ (q.major = l.curr.major ∧ q.minor = l.curr.minor)) ∧
        (if ml = [] then 0 < l.reads ∧ printable mj f l.curr.major l.curr.minor = true
          else l.curr.name ∈ ml)) ∧
    (∀ (kernel : Nat) (stream : List part_scan), kernel = 4 ∨ kernel = 6 →
      ∃ reg, initialize_with cap mj f kernel ml stream [] = .ok reg ∧
        ∀ d ∈ reg, ∃ l ∈ stream, l.curr = d ∧ l.items = 4 ∧
          (if ml = [] then 0 < l.reads ∧ printable mj f l.curr.major l.curr.minor = true
            else l.curr.name ∈ ml)) ∧
    (∀ (kernel : Nat) (pre : List part_scan) (l : part_scan), kernel = 4 ∨ kernel = 6 →
      ∃ reg_pre reg,
        initialize_with cap mj f kernel ml pre [] = .ok reg_pre ∧
        initialize_with cap mj f kernel ml (pre ++ [l]) [] = .ok reg ∧
        (reg = reg_pre ++ [l.curr] ∨ reg = reg_pre) ∧
        (l.items = 4 → reg_pre.length < cap →
          (∀ q ∈ reg_pre, ¬ (q.major = l.curr.major ∧ q.minor = l.curr.minor)) →
          (reg = reg_pre ++ [l.curr] ↔
            (if ml = [] then
              0 < l.reads ∧ printable mj f l.curr.major l.curr.minor = true
            else l.curr.name ∈ ml))) ∧
        (reg ≠ reg_pre →
          l.items = 4 ∧ reg_pre.length < cap ∧
          (∀ q ∈ reg_pre, ¬ (q.major = l.curr.major ∧ q.minor = l.curr.minor)) ∧
          (if ml = [] then 0 < l.reads ∧ printable mj f l.curr.major l.curr.minor = true
            else l.curr.name ∈ ml)) ∧
        ∀ post : List part_scan,
          ∃ reg_all, initialize_with cap mj f kernel ml (pre ++ l :: post) [] = .ok reg_all ∧
            reg <+: reg_all) ∧
    (∀ (kernel : Nat) (stream : List part_scan), kernel = 4 ∨ kernel = 6 →
      ∃ reg, initialize_with cap mj f kernel ml stream [] = .ok reg ∧
        ∀ l ∈ stream, l.items = 4 →
          (if ml = [] then 0 < l.reads ∧ printable mj f l.curr.major l.curr.minor = true
            else l.curr.name ∈ ml) →
          cap ≤ reg.length ∨
          ∃ d ∈ reg, d.major = l.curr.major ∧ d.minor = l.curr.minor) := by
  have hcond : ∀ l : part_scan,
      (if ml = [] then l.reads ≠ 0 ∧ printable mj f l.curr.major l.curr.minor = true
        else l.curr.name ∈ ml) ↔
      (if ml = [] then 0 < l.reads ∧ printable mj f l.curr.major l.curr.minor = true
        else l.curr.name ∈ ml) := by
    intro l
    by_cases h : ml = []
    · rw [if_pos h, if_pos h, Nat.pos_iff_ne_zero]
    · rw [if_neg h, if_neg h]
  have hline : ∀ (part : List part_info) (l : part_scan),
      l.items = 4 → part.length < cap →
      (∀ q ∈ part, ¬ (q.major = l.curr.major ∧ q.minor = l.curr.minor)) →
      ((initialize_line cap mj f ml part l = part ++ [l.curr] ↔
          (if ml = [] then 0 < l.reads ∧ printable mj f l.curr.major l.curr.minor = true
            else l.curr.name ∈ ml)) ∧
        (initialize_line cap mj f ml part l = part ++ [l.curr] ∨
          initialize_line cap mj f ml part l = part)) := by
    intro part l h4 hcap habs
    have hne : part ++ [l.curr] ≠ part := by
      intro h
      have := congrArg List.length h
      simp at this
    rcases initialize_line_cases cap mj f ml part l with he | ⟨he, -, -, -, hc⟩
    · refine ⟨⟨fun h => absurd (h.symm.trans he) hne, fun hc => ?_⟩, Or.inr he⟩
      rw [initialize_line_eq, if_pos ⟨h4, habs, hcap, (hcond l).mpr hc⟩]
    · exact ⟨⟨fun _ => (hcond l).mp hc, fun _ => he⟩, Or.inl he⟩
  have hother : ∀ (part : List part_info) (l : part_scan),
      initialize_line cap mj f ml part l ≠ part →
        initialize_line cap mj f ml part l = part ++ [l.curr] ∧ l.items = 4 ∧
        part.length < cap ∧
        (∀ q ∈ part, ¬ (q.major = l.curr.major ∧ q.minor = l.curr.minor)) ∧
        (if ml = [] then 0 < l.reads ∧ printable mj f l.curr.major l.curr.minor = true
          else l.curr.name ∈ ml) := by
    intro part l hne
    rcases initialize_line_cases cap mj f ml part l with he | ⟨he, h4, habs, hcap, hc⟩
    · exact absurd he hne
    · exact ⟨he, h4, hcap, habs, (hcond l).mp hc⟩
  refine ⟨hline, hother, ?_, ?_, ?_⟩
  · intro kernel stream hk
    refine ⟨_, if_pos hk, ?_⟩
    intro d hd
    rw [foldl_initialize_line, List.nil_append] at hd
    have hd' : d ∈ spec_accepted mj f ml stream :=
      (spec_first_distinct_sublist _ _).subset (List.mem_of_mem_take hd)
    unfold spec_accepted at hd'
    rw [List.mem_map] at hd'
    obtain ⟨l, hl, hld⟩ := hd'
    rw [List.mem_filter] at hl
    obtain ⟨h4, hc⟩ := (spec_accepts_iff mj f ml l).mp hl.2
    exact ⟨l, hl.1, hld, h4, (hcond l).mp hc⟩
  · intro kernel pre l hk
    have hstep : (pre ++ [l]).foldl (initialize_line cap mj f ml) []
        = initialize_line cap mj f ml (pre.foldl (initialize_line cap mj f ml) []) l := by
      rw [List.foldl_append]
      rfl
    refine ⟨pre.foldl (initialize_line cap mj f ml) [],
      initialize_line cap mj f ml (pre.foldl (initialize_line cap mj f ml) []) l,
      if_pos hk, ?_, ?_, ?_, ?_, ?_⟩
    · unfold initialize_with
      rw [if_pos hk, hstep]
    · rcases initialize_line_cases cap mj f ml
          (pre.foldl (initialize_line cap mj f ml) []) l with he | ⟨he, -⟩
      · exact Or.inr he
      · exact Or.inl he
    · intro h4 hcap habs
      exact (hline _ l h4 hcap habs).1
    · intro hne
      exact (hother _ l hne).2
    · intro post
      refine ⟨_, if_pos hk, ?_⟩
      have hall : (pre ++ l :: post).foldl (initialize_line cap mj f ml) []
          = post.foldl (initialize_line cap mj f ml)
              (initialize_line cap mj f ml (pre.foldl (initialize_line cap mj f ml) []) l) := by
        rw [List.foldl_append, List.foldl_cons]
      rw [hall]
      exact foldl_initialize_line_prefix cap mj f ml post _
  · intro kernel stream hk
    refine ⟨_, if_pos hk, ?_⟩
    intro l hl h4 hc
    exact foldl_initialize_line_complete cap mj f ml stream l hl
      ((spec_accepts_iff mj f ml l).mpr ⟨h4, (hcond l).mpr hc⟩)

/-- C7 witness: `initialize` run on the stream `sda`, `sdb` with the filter
`[sdb]` registers the idle disk `sdb` and not `sda`; run with an empty filter
it registers `sda`, which has reads, and not the idle `sdb`. -/
theorem C7_registration_test_witness :
    initialize_with 64 linux_majors default_flags 6 ["sdb"]
        ([discovery_line sda 5] ++ [discovery_line sdb 0]) [] = .ok [sdb] ∧
    initialize_with 64 linux_majors default_flags 6 []
        ([discovery_line sda 5] ++ [discovery_line sdb 0]) [] = .ok [sda] := by
  obtain ⟨p1, r1, hp1, hr1, -, hiff1, -⟩ :=
    (C7_registration_test 64 linux_majors default_flags ["sdb"]).2.2.2.1 6
      [discovery_line sda 5] (discovery_line sdb 0) (Or.inr rfl)
  obtain ⟨p2, r2, hp2, hr2, hor2, hiff2, -⟩ :=
    (C7_registration_test 64 linux_majors default_flags []).2.2.2.1 6
      [discovery_line sda 5] (discovery_line sdb 0) (Or.inr rfl)
  have e1 : p1 = [] := by
    have h : initialize_with 64 linux_majors default_flags 6 ["sdb"]
        [discovery_line sda 5] [] = .ok [] := rfl
    rw [h] at hp1
    injection hp1 with hp1
    exact hp1.symm
  have e2 : p2 = [sda] := by
    have h : initialize_with 64 linux_majors default_flags 6 []
        [discovery_line sda 5] [] = .ok [sda] := rfl
    rw [h] at hp2
    injection hp2 with hp2
    exact hp2.symm
  subst e1
  subst e2
  constructor
  · rw [hr1, (hiff1 rfl (by decide) (by decide)).mpr (by decide)]
    rfl
  · rw [hr2]
    rcases hor2 with h | h
    · exact absurd ((hiff2 rfl (by decide) (by decide)).mp h) (by decide)
    · rw [h]

/-- C8 (as stated, refuted): for a stream listing `sda` before `sdb` and the
filter `[sdb, sda]` the table is `[sda, sdb]`, not `[sdb, sda]`. -/
theorem C8_filter_order_not_followed :
    initialize_partitions linux_majors default_flags 6 ["sdb", "sda"]
        [discovery_line sda 5, discovery_line sdb 7] [] = .ok [sda, sdb] ∧
    initialize_partitions linux_majors default_flags 6 ["sdb", "sda"]
        [discovery_line sda 5, discovery_line sdb 7] [] ≠ .ok [sdb, sda] := by
  have h : initialize_partitions linux_majors default_flags 6 ["sdb", "sda"]
      [discovery_line sda 5, discovery_line sdb 7] [] = .ok [sda, sdb] := rfl
  refine ⟨h, ?_⟩
  rw [h]
  intro hx
  injection hx with hx
  exact absurd hx (by decide)

/-- C8 (amended): in selection mode the table lists the registered devices in
the order of their lines in the discovery stream, and it is the same for every
ordering (and repetition) of the names in the filter. -/
theorem C8_order_follows_stream (cap : Nat) (mj : major_numbers) (f : flags) (kernel : Nat)
    (ml : List String) (stream : List part_scan)
    (hk : kernel = 4 ∨ kernel = 6) (_hml : ml ≠ []) :
    (∃ reg, initialize_with cap mj f kernel ml stream [] = .ok reg ∧
      reg.Sublist (stream.map (fun l => l.curr))) ∧
    (∀ ml' : List String, (∀ s, s ∈ ml' ↔ s ∈ ml) →
      initialize_with cap mj f kernel ml' stream [] =
        initialize_with cap mj f kernel ml stream []) := by
  constructor
  · refine ⟨_, if_pos hk, ?_⟩
    rw [foldl_initialize_line, List.nil_append]
    refine (List.take_sublist _ _).trans ((spec_first_distinct_sublist _ _).trans ?_)
    unfold spec_accepted
    exact (List.filter_sublist _).map _
  · intro ml' hmem
    have hnil : ml' = [] ↔ ml = [] := by
      constructor
      · intro h; subst h
        exact List.eq_nil_iff_forall_not_mem.mpr (fun s hs => by simpa using (hmem s).mpr hs)
      · intro h; subst h
        exact List.eq_nil_iff_forall_not_mem.mpr (fun s hs => by simpa using (hmem s).mp hs)
    have hstep : initialize_line cap mj f ml' = initialize_line cap mj f ml := by
      funext part l
      rw [initialize_line_eq, initialize_line_eq]
      have hc : (if ml' = [] then
            l.reads ≠ 0 ∧ printable mj f l.curr.major l.curr.minor = true
          else l.curr.name ∈ ml') ↔
          (if ml = [] then
            l.reads ≠ 0 ∧ printable mj f l.curr.major l.curr.minor = true
          else l.curr.name ∈ ml) := by
        by_cases h : ml = []
        · rw [if_pos h, if_pos (hnil.mpr h)]
        · rw [if_neg h, if_neg (fun h' => h (hnil.mp h')), hmem]
      exact if_congr (and_congr_right (fun _ => and_congr_right (fun _ =>
        and_congr_right (fun _ => hc)))) rfl rfl
    unfold initialize_with
    rw [hstep]

/-- C8 witness: `sda` before `sdb` in the stream, for both orders of the
filter. -/
theorem C8_order_follows_stream_witness :
    initialize_with 64 linux_majors default_flags 6 ["sda", "sdb"]
        [discovery_line sda 5, discovery_line sdb 7] [] =
      initialize_with 64 linux_majors default_flags 6 ["sdb", "sda"]
        [discovery_line sda 5, discovery_line sdb 7] [] :=
  (C8_order_follows_stream 64 linux_majors default_flags 6 ["sdb", "sda"]
    [discovery_line sda 5, discovery_line sdb 7] (Or.inr rfl) (by decide)).2
    ["sda", "sdb"] (by intro s; simp [or_comm])

/-- C9: `initialize` returns a table for every stream, never an error for an
overflow; the table holds at most `capacity` devices (at most 64 in the
source) and is exactly the first `capacity` distinct accepted candidates in
discovery order. -/
theorem C9_capacity_truncation (cap : Nat) (mj : major_numbers) (f : flags) (kernel : Nat)
    (ml : List String) (stream : List part_scan) (hk : kernel = 4 ∨ kernel = 6) :
    initialize_with cap mj f kernel ml stream [] = .ok (spec_registry cap mj f ml stream) ∧
    (spec_registry cap mj f ml stream).length ≤ cap ∧
    initialize_partitions mj f kernel ml stream [] =
      .ok (spec_registry MAX_PARTITIONS mj f ml stream) ∧
    (spec_registry MAX_PARTITIONS mj f ml stream).length ≤ 64 := by
  have h : ∀ c, initialize_with c mj f kernel ml stream [] =
      .ok (spec_registry c mj f ml stream) := by
    intro c
    unfold initialize_with
    rw [if_pos hk, foldl_initialize_line]
    simp [spec_registry]
  have hlen : ∀ c, (spec_registry c mj f ml stream).length ≤ c := by
    intro c
    unfold spec_registry
    rw [List.length_take]
    exact Nat.min_le_left _ _
  exact ⟨h cap, hlen cap, h MAX_PARTITIONS, hlen 64⟩

/-- C9 witness: capacity 2 and three accepted devices; the first two are
registered and the third is dropped. -/
theorem C9_capacity_truncation_witness :
    initialize_with 2 linux_majors default_flags 6 []
        [discovery_line sda 5, discovery_line sdb 7, discovery_line sdc 1] []
      = .ok [sda, sdb] := by
  rw [(C9_capacity_truncation 2 linux_majors default_flags 6 []
    [discovery_line sda 5, discovery_line sdb 7, discovery_line sdc 1] (Or.inr rfl)).1]
  rfl

/-- C10: starting from the empty table, for every discovery stream and every
name filter, no two distinct indices of the table built by `initialize` hold
the same (major, minor) pair. -/
theorem C10_registry_unique (cap : Nat) (mj : major_numbers) (f : flags) (kernel : Nat)
    (ml : List String) (stream : List part_scan) (hk : kernel = 4 ∨ kernel = 6) :
    ∃ reg, initialize_with cap mj f kernel ml stream [] = .ok reg ∧
      ∀ (p q : Nat) (hp : p < reg.length) (hq : q < reg.length), p ≠ q →
        ¬ ((reg.get ⟨p, hp⟩).major = (reg.get ⟨q, hq⟩).major ∧
           (reg.get ⟨p, hp⟩).minor = (reg.get ⟨q, hq⟩).minor) := by
  refine ⟨_, if_pos hk, ?_⟩
  have hpw := foldl_initialize_line_pairwise cap mj f ml stream [] List.Pairwise.nil
  rw [List.pairwise_iff_get] at hpw
  intro p q hp hq hne
  rcases Nat.lt_or_gt_of_ne hne with h | h
  · exact hpw ⟨p, hp⟩ ⟨q, hq⟩ h
  · intro hc
    exact hpw ⟨q, hq⟩ ⟨p, hp⟩ h ⟨hc.1.symm, hc.2.symm⟩

/-- C10 witness: a stream that repeats `sda` and a filter that repeats its
name register the device once. -/
theorem C10_registry_unique_witness :
    ∃ reg, initialize_with 64 linux_majors default_flags 6 ["sda", "sda", "sdb"]
        [discovery_line sda 5, discovery_line sda 6, discovery_line sdb 7,
         discovery_line sda 8] [] = .ok reg ∧
      ∀ (p q : Nat) (hp : p < reg.length) (hq : q < reg.length), p ≠ q →
        ¬ ((reg.get ⟨p, hp⟩).major = (reg.get ⟨q, hq⟩).major ∧
           (reg.get ⟨p, hp⟩).minor = (reg.get ⟨q, hq⟩).minor) :=
  C10_registry_unique 64 linux_majors default_flags 6 ["sda", "sda", "sdb"]
    [discovery_line sda 5, discovery_line sda 6, discovery_line sdb 7,
     discovery_line sda 8] (Or.inr rfl)

/-- C11: `printable` is true when the major number is neither IDE-like nor
SCSI-like; for an IDE-like major it is true iff the minor has no bit of `0x3F`
and `print_device` is set, or has one and `print_partition` is set; for a
SCSI-like major the same with mask `0x0F`. With the major numbers of Linux the
SCSI-like majors are 8, 65..71 and 128..135, none of them IDE-like. -/
theorem C11_printable (mj : major_numbers) (f : flags) (major minor : Nat) :
    (IDE_DISK_MAJOR mj major = false → SCSI_DISK_MAJOR mj major = false →
      printable mj f major minor = true) ∧
    (IDE_DISK_MAJOR mj major = true →
      (printable mj f major minor = true ↔
        (minor &&& 0x3F = 0 ∧ f.print_device = true) ∨
        (minor &&& 0x3F ≠ 0 ∧ f.print_partition = true))) ∧
    (IDE_DISK_MAJOR mj major = false → SCSI_DISK_MAJOR mj major = true →
      (printable mj f major minor = true ↔
        (minor &&& 0x0F = 0 ∧ f.print_device = true) ∨
        (minor &&& 0x0F ≠ 0 ∧ f.print_partition = true))) ∧
    (SCSI_DISK_MAJOR linux_majors major = true ↔
      major = 8 ∨ (65 ≤ major ∧ major ≤ 71) ∨ (128 ≤ major ∧ major ≤ 135)) ∧
    (SCSI_DISK_MAJOR linux_majors major = true →
      IDE_DISK_MAJOR linux_majors major = false) ∧
    (major = 8 ∨ (65 ≤ major ∧ major ≤ 71) ∨ (128 ≤ major ∧ major ≤ 135) →
      (printable linux_majors f major minor = true ↔
        (minor &&& 0x0F = 0 ∧ f.print_device = true) ∨
        (minor &&& 0x0F ≠ 0 ∧ f.print_partition = true))) := by
  have hscsi : SCSI_DISK_MAJOR linux_majors major = true ↔
      major = 8 ∨ (65 ≤ major ∧ major ≤ 71) ∨ (128 ≤ major ∧ major ≤ 135) := by
    simp [SCSI_DISK_MAJOR, linux_majors, SCSI_DISK8_MAJOR, SCSI_DISK15_MAJOR, or_assoc]
  have hmask : ∀ mj' : major_numbers, IDE_DISK_MAJOR mj' major = false →
      SCSI_DISK_MAJOR mj' major = true →
      (printable mj' f major minor = true ↔
        (minor &&& 0x0F = 0 ∧ f.print_device = true) ∨
        (minor &&& 0x0F ≠ 0 ∧ f.print_partition = true)) := by
    intro mj' hi hs
    simp only [printable, hi, hs, if_true, Bool.false_eq_true, if_false]
    by_cases hm : minor &&& 0x0F = 0 <;> simp [hm]
  have hdisj : SCSI_DISK_MAJOR linux_majors major = true →
      IDE_DISK_MAJOR linux_majors major = false := by
    intro hs
    have h := hscsi.mp hs
    simp only [IDE_DISK_MAJOR, linux_majors]
    simp only [Bool.or_eq_false_iff, beq_eq_false_iff_ne, ne_eq]
    omega
  refine ⟨?_, ?_, hmask mj, hscsi, hdisj, ?_⟩
  · intro hi hs
    simp [printable, hi, hs]
  · intro hi
    simp only [printable, hi, if_true]
    by_cases hm : minor &&& 0x3F = 0 <;> simp [hm]
  · intro hm
    have hs := hscsi.mpr hm
    exact hmask linux_majors (hdisj hs) hs

/-- C11 witness: with the default flags the whole disk 8:0 is printable and
its partition 8:1 is not; the IDE partition 3:65 is not, and the unknown major
253 is. -/
theorem C11_printable_witness :
    printable linux_majors default_flags 8 0 = true ∧
    printable linux_majors default_flags 8 1 = false ∧
    printable linux_majors default_flags 3 65 = false ∧
    printable linux_majors default_flags 253 7 = true := by
  refine ⟨?_, ?_, ?_, ?_⟩
  · exact ((C11_printable linux_majors default_flags 8 0).2.2.1 (by decide) (by decide)).mpr
      (Or.inl ⟨by decide, rfl⟩)
  · have h := (C11_printable linux_majors default_flags 8 1).2.2.1 (by decide) (by decide)
    cases hp : printable linux_majors default_flags 8 1
    · rfl
    · exact absurd (h.mp hp) (by decide)
  · have h := (C11_printable linux_majors default_flags 3 65).2.1 (by decide)
    cases hp : printable linux_majors default_flags 3 65
    · rfl
    · exact absurd (h.mp hp) (by decide)
  · exact (C11_printable linux_majors default_flags 253 7).1 (by decide) (by decide)

/-- C12 (as stated, refuted): the first call of `process`, on the zero-initialised
tables, emits rate values: for the example lines it prints the device row
150 KB/s, 15 I/Os per second, 20 ms and the CPU columns 30, 10, 0, 60. -/
theorem C12_first_sample_emits_rates :
    ∃ r st', process 1 100 6 no_option_flags 0 [sda_stat_line] [cpu_stat_line]
        (initial_state [sda]) = .ok (r, st') ∧
      main_loop 1 100 6 no_option_flags 0 [([sda_stat_line], [cpu_stat_line])]
        (initial_state [sda]) = .ok [r] ∧
      r.partitions = [[150, 15, 20]] ∧ r.cpu = some [30, 10, 0, 60] := by
  have hp := process_ok 1 100 6 no_option_flags 0 [sda_stat_line] [cpu_stat_line]
    (initial_state [sda]) (Or.inr rfl)
  refine ⟨_, _, hp, ?_, ?_, ?_⟩
  · simp only [main_loop, hp]
  · have h1 := example_first_read_blkio
    have h2 := example_first_read_cpu
    have h3 := example_partition_columns
    simp only [initial_state] at h1 h2
    simp only [zero_blkio] at h3
    simp only [print_partition_stats, initial_state, List.length_singleton]
    rw [show List.range 1 = [0] from rfl]
    simp only [List.map_cons, List.map_nil]
    rw [h1, h2, example_deltams, h3]
    simp [no_option_flags, default_flags]
  · have h2 := example_first_read_cpu
    simp only [initial_state] at h2 ⊢
    rw [h2, example_cpu_columns]
    simp [no_option_flags, default_flags]

/-- C12 (amended): the first call of `process`, on the zero-initialised tables,
skips nothing: it prints the header, then for every registered device the row
of rates computed against all-zero previous counters, with the elapsed time
taken from the CPU counters against zero, and, unless in extended mode, the CPU
percentages against zero when `print_cpu` is set. -/
theorem C12_first_sample_reported (ncpu HZ kernel : Nat) (f : flags)
    (part : List part_info) (io : List stat_scan) (cpu : List cpu_scan)
    (hk : kernel = 4 ∨ kernel = 6) :
    ∃ r st', process ncpu HZ kernel f 0 io cpu (initial_state part) = .ok (r, st') ∧
      main_loop ncpu HZ kernel f 0 [(io, cpu)] (initial_state part) = .ok [r] ∧
      r.header = true ∧
      r.partitions.length = part.length ∧
      (∀ p, p < part.length →
        r.partitions[p]? =
          some (partition_columns f (deltams ncpu HZ st'.new_cpu zero_cpu)
              (partition_stats (deltams ncpu HZ st'.new_cpu zero_cpu)
                (st'.new_blkio p) zero_blkio) ++
            (if f.print_disk_extended = true ∧ p = 0 ∧ f.print_cpu = true then
              print_cpu_stats kernel st'.new_cpu zero_cpu
            else []))) ∧
      (f.print_disk_extended = false → f.print_cpu = true →
        r.cpu = some (print_cpu_stats kernel st'.new_cpu zero_cpu)) := by
  have hp := process_ok ncpu HZ kernel f 0 io cpu (initial_state part) hk
  refine ⟨_, _, hp, ?_, ?_, ?_, ?_, ?_⟩
  · simp only [main_loop, hp]
  · simp
  · exact print_partition_stats_length _ _ _ _ _
  · intro p hlt
    exact print_partition_stats_row ncpu HZ kernel f _ p hlt
  · intro h1 h2
    simp only [save_old_stats, initial_state]
    rw [if_pos ⟨h1, h2⟩]

/-- C12 witness: the first report of the example run has one row, and that
row is not skipped. -/
theorem C12_first_sample_reported_witness :
    ∃ r st', process 1 100 6 no_option_flags 0 [sda_stat_line] [cpu_stat_line]
        (initial_state [sda]) = .ok (r, st') ∧ r.header = true ∧ r.partitions.length = 1 := by
  obtain ⟨r, st', h1, -, h3, h4, -⟩ := C12_first_sample_reported 1 100 6 no_option_flags [sda]
    [sda_stat_line] [cpu_stat_line] (Or.inr rfl)
  exact ⟨r, st', h1, h3, h4⟩

/-- C13 (as stated, refuted): two consecutive cycles that read the same CPU
counters have equal tick totals, so `deltams` is 0 in the second cycle; the
second call of `process` still returns normally and prints a device row of
three values and the CPU columns. -/
theorem C13_zero_elapsed_still_reports :
    ∃ r1 st1 r2 st2,
      process 1 100 6 no_option_flags 0 [sda_stat_line] [cpu_stat_line]
        (initial_state [sda]) = .ok (r1, st1) ∧
      process 1 100 6 no_option_flags 1 [sda_stat_line] [cpu_stat_line] st1 = .ok (r2, st2) ∧
      main_loop 1 100 6 no_option_flags 0
        [([sda_stat_line], [cpu_stat_line]), ([sda_stat_line], [cpu_stat_line])]
        (initial_state [sda]) = .ok [r1, r2] ∧
      deltams 1 100 st2.new_cpu st1.old_cpu = 0 ∧
      r2.partitions.map List.length = [3] ∧
      r2.cpu.isSome = true := by
  have hp1 := process_ok 1 100 6 no_option_flags 0 [sda_stat_line] [cpu_stat_line]
    (initial_state [sda]) (Or.inr rfl)
  have hp2 := process_ok 1 100 6 no_option_flags 1 [sda_stat_line] [cpu_stat_line]
    (save_old_stats
      { initial_state [sda] with
        new_blkio := [sda_stat_line].foldl (get_kernel_stats_line (initial_state [sda]).partition)
          (initial_state [sda]).new_blkio,
        new_cpu := [cpu_stat_line].foldl get_kernel_stats_cpu_line
          (initial_state [sda]).new_cpu }) (Or.inr rfl)
  refine ⟨_, _, _, _, hp1, hp2, ?_, ?_, ?_, ?_⟩
  · have e : ((0 : Int) + 1) % 21 = 1 := by decide
    simp only [main_loop, hp1, e, hp2]
  · apply (deltams_zero_of_totals_eq 1 100 _ _).2
    decide
  · simp [print_partition_stats, save_old_stats, initial_state, partition_columns,
      no_option_flags, default_flags]
    rfl
  · simp [no_option_flags, default_flags]

/-- C13 (amended): the rate computation has no error path. For every state and
every input `process` returns and prints one row for each registered device;
`deltams` is never negative, and when the tick totals of the two samples are
equal it is 0, and then, whatever a quotient by zero is taken to be, the
per-second rates, the queue length and the busy percentage of every row are
formed by a division by that zero. -/
theorem C13_no_error_path (ncpu HZ kernel : Nat) (f : flags) (lineno : Int)
    (io : List stat_scan) (cpu : List cpu_scan) (st : state)
    (hk : kernel = 4 ∨ kernel = 6) :
    ∃ r st', process ncpu HZ kernel f lineno io cpu st = .ok (r, st') ∧
      r.partitions.length = st.partition.length ∧
      0 ≤ deltams ncpu HZ st'.new_cpu st.old_cpu ∧
      (add64 (add64 (add64 st'.new_cpu.user st'.new_cpu.system) st'.new_cpu.idle)
          st'.new_cpu.iowait =
        add64 (add64 (add64 st.old_cpu.user st.old_cpu.system) st.old_cpu.idle)
          st.old_cpu.iowait →
        deltams ncpu HZ st'.new_cpu st.old_cpu = 0 ∧
        ∀ (dv : ℚ → ℚ → ℚ) (n o : blkio_info),
          (partition_stats_div dv (deltams ncpu HZ st'.new_cpu st.old_cpu) n o).queue
            = dv ((blkio_delta n o).aveq : ℚ) 0 ∧
          (partition_stats_div dv (deltams ncpu HZ st'.new_cpu st.old_cpu) n o).busy
            = (if dv (100 * ((blkio_delta n o).ticks : ℚ)) 0 > 100 then 100
                else dv (100 * ((blkio_delta n o).ticks : ℚ)) 0)) ∧
      process_div (fun x y => x / y) ncpu HZ kernel f lineno io cpu st = .ok (r, st') ∧
      ∀ dv : ℚ → ℚ → ℚ,
        ∃ rd, process_div dv ncpu HZ kernel f lineno io cpu st = .ok (rd, st') ∧
          rd.partitions.length = st.partition.length ∧
          (add64 (add64 (add64 st'.new_cpu.user st'.new_cpu.system) st'.new_cpu.idle)
              st'.new_cpu.iowait =
            add64 (add64 (add64 st.old_cpu.user st.old_cpu.system) st.old_cpu.idle)
              st.old_cpu.iowait →
            (∀ p, p < st.partition.length →
              ∃ cpu_columns,
                rd.partitions[p]? =
                  some (partition_columns_div dv f 0
                    (partition_stats_div dv 0 (st'.new_blkio p) (st.old_blkio p))
                      ++ cpu_columns)) ∧
            ∀ s : part_stats,
              (f.print_disk_extended = true →
                partition_columns_div dv f 0 s =
                  [dv (1000 * (s.blkio.rd_merges : ℚ)) 0, dv (1000 * (s.blkio.wr_merges : ℚ)) 0,
                   dv (1000 * (s.blkio.rd_ios : ℚ)) 0, dv (1000 * (s.blkio.wr_ios : ℚ)) 0,
                   dv (dv (1000 * (s.blkio.rd_sectors : ℚ)) 0) 2,
                   dv (dv (1000 * (s.blkio.wr_sectors : ℚ)) 0) 2,
                   s.size, s.queue, s.wait, s.svc_t, s.busy]) ∧
              (f.print_disk_extended = false → f.print_disk_util = true →
                partition_columns_div dv f 0 s =
                  [dv (1000 * (s.blkio.rd_ios : ℚ)) 0, dv (1000 * (s.blkio.wr_ios : ℚ)) 0,
                   s.busy]) ∧
              (f.print_disk_extended = false → f.print_disk_util = false →
                partition_columns_div dv f 0 s =
                  [dv (1000 * s.n_kbytes) 0, dv (1000 * s.n_ios) 0, s.svc_t])) := by
  have hp := process_ok ncpu HZ kernel f lineno io cpu st hk
  refine ⟨_, _, hp, print_partition_stats_length _ _ _ _ _,
    (deltams_zero_of_totals_eq _ _ _ _).1, ?_, ?_, ?_⟩
  · intro h
    have h0 := (deltams_zero_of_totals_eq ncpu HZ _ _).2 h
    refine ⟨h0, fun dv n o => ?_⟩
    rw [h0]
    exact ⟨rfl, rfl⟩
  · rw [process_div_exact]
    exact hp
  · intro dv
    refine ⟨_, process_div_ok dv ncpu HZ kernel f lineno io cpu st hk,
      print_partition_stats_div_length _ _ _ _ _ _, ?_⟩
    intro h
    have h0 := (deltams_zero_of_totals_eq ncpu HZ _ _).2 h
    constructor
    · intro p hlt
      have hrow := print_partition_stats_div_row dv ncpu HZ kernel f
        { st with
          new_blkio := io.foldl (get_kernel_stats_line st.partition) st.new_blkio,
          new_cpu := cpu.foldl get_kernel_stats_cpu_line st.new_cpu } p hlt
      simp only [save_old_stats] at h0
      rw [h0] at hrow
      exact ⟨_, hrow⟩
    · intro s
      refine ⟨?_, ?_, ?_⟩
      · intro h1
        simp [partition_columns_div, h1, PER_SEC_div]
      · intro h1 h2
        simp [partition_columns_div, h1, h2, PER_SEC_div]
      · intro h1 h2
        simp [partition_columns_div, h1, h2, PER_SEC_div]

/-- C13 witness: a cycle that finds both generations of the CPU counters equal
returns with a row for its device. -/
theorem C13_no_error_path_witness :
    ∃ r st', process 1 100 6 no_option_flags 1 [sda_stat_line] [cpu_stat_line] steady_state
        = .ok (r, st') ∧
      r.partitions.length = 1 ∧
      deltams 1 100 st'.new_cpu steady_state.old_cpu = 0 := by
  obtain ⟨r, st', h1, h2, -, h4, -⟩ := C13_no_error_path 1 100 6 no_option_flags 1
    [sda_stat_line] [cpu_stat_line] steady_state (Or.inr rfl)
  refine ⟨r, st', h1, h2, (h4 ?_).1⟩
  have e : st'.new_cpu = [cpu_stat_line].foldl get_kernel_stats_cpu_line steady_state.new_cpu := by
    have hp := process_ok 1 100 6 no_option_flags 1 [sda_stat_line] [cpu_stat_line]
      steady_state (Or.inr rfl)
    rw [hp] at h1
    injection h1 with h1
    injection h1 with _ h1
    rw [← h1]
    rfl
  rw [e]
  decide

/-- C14: `get_kernel_stats` leaves the table of devices and the previous
generation unchanged, and changes `new_blkio[p]` only for an index below
`n_partitions` whose entry has the major and minor numbers of some line with 6
or 12 items; a record for numbers that are not registered modifies no entry,
and a registered device named by no line keeps its record. -/
theorem C14_kernel_stats_frame (kernel : Nat) (io : List stat_scan) (cpu : List cpu_scan)
    (st : state) (hk : kernel = 4 ∨ kernel = 6) :
    ∃ st', get_kernel_stats kernel io cpu st = .ok st' ∧
      st'.partition = st.partition ∧
      st'.old_blkio = st.old_blkio ∧ st'.old_cpu = st.old_cpu ∧
      (∀ p, st'.new_blkio p ≠ st.new_blkio p →
        p < st.partition.length ∧
        ∃ l ∈ io, (l.items = 6 ∨ l.items = 12) ∧
          ∃ e, st.partition[p]? = some e ∧ e.major = l.major ∧ e.minor = l.minor) ∧
      (∀ (l : stat_scan) (nb : Nat → blkio_info),
        (∀ e ∈ st.partition, ¬ (e.major = l.major ∧ e.minor = l.minor)) →
        get_kernel_stats_line st.partition nb l = nb) ∧
      (∀ p e, st.partition[p]? = some e →
        (∀ l ∈ io, ¬ (e.major = l.major ∧ e.minor = l.minor)) →
        st'.new_blkio p = st.new_blkio p) := by
  refine ⟨_, get_kernel_stats_ok kernel io cpu st hk, rfl, rfl, rfl, ?_, ?_, ?_⟩
  · intro p hne
    obtain ⟨l, hl, hi, e, he, hm⟩ :=
      foldl_get_kernel_stats_line_changed st.partition io st.new_blkio p hne
    refine ⟨?_, l, hl, hi, e, he, hm⟩
    by_contra hlt
    rw [List.getElem?_eq_none (Nat.le_of_not_lt hlt)] at he
    exact Option.noConfusion he
  · intro l nb hno
    funext i
    apply get_kernel_stats_line_frame
    intro e he
    exact hno e (List.getElem?_mem he)
  · intro p e he hno
    show io.foldl (get_kernel_stats_line st.partition) st.new_blkio p = st.new_blkio p
    apply foldl_get_kernel_stats_line_frame
    intro m hm
    refine Or.inr (fun e' he' => ?_)
    rw [he] at he'
    cases he'
    exact hno m hm

/-- C14 witness: with `sda` and `sdb` registered, a stream with a line for `sda`
and a line for the unregistered device 9:9 changes the record of `sda` only. -/
theorem C14_kernel_stats_frame_witness :
    ∃ st', get_kernel_stats 6
        [sda_stat_line, { items := 12, major := 9, minor := 9, blkio := const_blkio 7 }]
        [cpu_stat_line] (initial_state [sda, sdb]) = .ok st' ∧
      st'.partition = [sda, sdb] ∧
      st'.new_blkio 1 = (initial_state [sda, sdb]).new_blkio 1 := by
  obtain ⟨st', h1, h2, -, -, -, -, h7⟩ := C14_kernel_stats_frame 6
    [sda_stat_line, { items := 12, major := 9, minor := 9, blkio := const_blkio 7 }]
    [cpu_stat_line] (initial_state [sda, sdb]) (Or.inr rfl)
  exact ⟨st', h1, h2, h7 1 sdb rfl (by decide)⟩

/-- C15: after every call of `process` the previous generation equals the
current one, `old_blkio[p] = new_blkio[p]` below `n_partitions` and
`old_cpu = new_cpu`; a following read that leaves the same current counters
gives every device difference and every CPU difference as 0, and a read of the
same lines does so. -/
theorem C15_generations_equal (ncpu HZ kernel : Nat) (f : flags) (lineno : Int)
    (io : List stat_scan) (cpu : List cpu_scan) (st : state)
    (hk : kernel = 4 ∨ kernel = 6) :
    ∃ r st', process ncpu HZ kernel f lineno io cpu st = .ok (r, st') ∧
      st'.partition = st.partition ∧
      (∀ p, p < st'.partition.length → st'.old_blkio p = st'.new_blkio p) ∧
      st'.old_cpu = st'.new_cpu ∧
      (∀ (io2 : List stat_scan) (cpu2 : List cpu_scan),
        ∃ st2, get_kernel_stats kernel io2 cpu2 st' = .ok st2 ∧
          (∀ p, p < st'.partition.length → st2.new_blkio p = st'.new_blkio p →
            blkio_delta (st2.new_blkio p) (st2.old_blkio p) = zero_blkio) ∧
          (st2.new_cpu = st'.new_cpu → cpu_delta st2.new_cpu st2.old_cpu = zero_cpu)) ∧
      (∃ st2, get_kernel_stats kernel io cpu st' = .ok st2 ∧
        (∀ p, p < st'.partition.length →
          blkio_delta (st2.new_blkio p) (st2.old_blkio p) = zero_blkio) ∧
        ((∀ l ∈ cpu, l.buffer.data.take 4 = ['c', 'p', 'u', ' '] → 1 ≤ l.items) →
          cpu_delta st2.new_cpu st2.old_cpu = zero_cpu)) := by
  have hp := process_ok ncpu HZ kernel f lineno io cpu st hk
  refine ⟨_, _, hp, rfl, ?_, rfl, ?_, ?_⟩
  · intro p hlt
    have hlt' : p < st.partition.length := hlt
    simp only [save_old_stats]
    rw [if_pos hlt']
  · intro io2 cpu2
    refine ⟨_, get_kernel_stats_ok kernel io2 cpu2 _ hk, ?_, ?_⟩
    · intro p hlt hsame
      have hlt' : p < st.partition.length := hlt
      simp only [save_old_stats] at hsame ⊢
      rw [if_pos hlt', hsame]
      exact blkio_delta_self _
    · intro hsame
      simp only [save_old_stats] at hsame ⊢
      rw [hsame]
      exact cpu_delta_self _
  · refine ⟨_, get_kernel_stats_ok kernel io cpu _ hk, ?_, ?_⟩
    · intro p hlt
      have hlt' : p < st.partition.length := hlt
      simp only [save_old_stats]
      rw [if_pos hlt', foldl_get_kernel_stats_line_twice]
      exact blkio_delta_self _
    · intro hcpu
      simp only [save_old_stats]
      rw [foldl_get_kernel_stats_cpu_line_twice cpu _ hcpu]
      exact cpu_delta_self _

/-- C15 witness: after the first cycle of the example both generations hold the
scenario counters of `sda` and the same CPU ticks. -/
theorem C15_generations_equal_witness :
    ∃ r st', process 1 100 6 no_option_flags 0 [sda_stat_line] [cpu_stat_line]
        (initial_state [sda]) = .ok (r, st') ∧
      st'.old_blkio 0 = st'.new_blkio 0 ∧ st'.old_cpu = st'.new_cpu := by
  obtain ⟨r, st', h1, h2, h3, h4, -⟩ := C15_generations_equal 1 100 6 no_option_flags 0
    [sda_stat_line] [cpu_stat_line] (initial_state [sda]) (Or.inr rfl)
  refine ⟨r, st', h1, h3 0 ?_, h4⟩
  rw [h2]
  decide

/-- C16 (as stated, refuted): the line of six items for the partition 8:1
carries the I/O counts 7 and 9, and the record stored for the device has
`rd_ios = 0` and `wr_ios = 0`. -/
theorem C16_io_counts_not_stored :
    sda1_partition_line.items = 6 ∧
    sda1_partition_line.blkio.rd_ios = 7 ∧
    sda1_partition_line.blkio.rd_sectors = 9 ∧
    (get_kernel_stats_line [sda, ⟨8, 1, "sda1"⟩] (fun _ => zero_blkio)
      sda1_partition_line 1).rd_ios = 0 ∧
    (get_kernel_stats_line [sda, ⟨8, 1, "sda1"⟩] (fun _ => zero_blkio)
      sda1_partition_line 1).wr_ios = 0 ∧
    (get_kernel_stats_line [sda, ⟨8, 1, "sda1"⟩] (fun _ => zero_blkio)
      sda1_partition_line 1).rd_sectors = 500 ∧
    (get_kernel_stats_line [sda, ⟨8, 1, "sda1"⟩] (fun _ => zero_blkio)
      sda1_partition_line 1).wr_sectors = 300 := by
  decide

/-- C16 (amended): for a line of six items only the two sector counts are
populated from the line. Every record the line changes has `rd_sectors` and
`wr_sectors` equal to the second and fourth numeric field and all eight other
fields, `rd_ios` and `wr_ios` included, equal to 0; two such lines that agree
in the device numbers and in these two fields have the same effect, whatever
their I/O counts are. -/
theorem C16_partition_io_counts_dropped (part : List part_info) (nb : Nat → blkio_info)
    (l l' : stat_scan) (h6 : l.items = 6) (h6' : l'.items = 6)
    (hmj : l.major = l'.major) (hmn : l.minor = l'.minor)
    (h2 : l.blkio.rd_merges = l'.blkio.rd_merges)
    (h4 : l.blkio.rd_ticks = l'.blkio.rd_ticks) :
    get_kernel_stats_line part nb l = get_kernel_stats_line part nb l' ∧
    ∀ p, get_kernel_stats_line part nb l p ≠ nb p →
      get_kernel_stats_line part nb l p =
        { rd_ios := 0, rd_merges := 0, rd_sectors := l.blkio.rd_merges, rd_ticks := 0,
          wr_ios := 0, wr_merges := 0, wr_sectors := l.blkio.rd_ticks, wr_ticks := 0,
          ticks := 0, aveq := 0 } := by
  constructor
  · unfold get_kernel_stats_line
    simp only [h6, h6', if_true]
    rw [remap_partition_eq, remap_partition_eq, hmj, hmn, h2, h4]
  · intro p hne
    rcases get_kernel_stats_line_shape part l with ⟨i, hi⟩ | hid
    · rw [hi nb] at hne ⊢
      by_cases hip : p = i
      · subst hip
        rw [Function.update_same, if_pos h6, remap_partition_eq]
      · exact absurd (Function.update_noteq hip _ nb) hne
    · exact absurd (congrFun (hid nb) p) hne

/-- C16 witness: the partition line with the I/O counts 7 and 9 and the same
line with the I/O counts 0 store the same record. -/
theorem C16_partition_io_counts_dropped_witness :
    get_kernel_stats_line [sda, ⟨8, 1, "sda1"⟩] (fun _ => zero_blkio) sda1_partition_line =
      get_kernel_stats_line [sda, ⟨8, 1, "sda1"⟩] (fun _ => zero_blkio)
        { sda1_partition_line with
          blkio := { sda1_partition_line.blkio with rd_ios := 0, rd_sectors := 0 } } :=
  (C16_partition_io_counts_dropped [sda, ⟨8, 1, "sda1"⟩] (fun _ => zero_blkio)
    sda1_partition_line
    { sda1_partition_line with
      blkio := { sda1_partition_line.blkio with rd_ios := 0, rd_sectors := 0 } }
    rfl rfl rfl rfl rfl rfl).1

/-- C17 (the code at the failing input): with both I/O counters and both tick
counters advanced by `2^31`, the four differences are `2^31`, yet the sums
formed in `unsigned int` wrap: `n_ios` and `n_ticks` are 0 instead of `2^32`,
and `size`, `wait` and `svc_t` are reported as 0. -/
theorem C17_n_ios_sum_wraps :
    (blkio_delta wrapping_ios_blkio zero_blkio).rd_ios = 2 ^ 31 ∧
    (blkio_delta wrapping_ios_blkio zero_blkio).wr_ios = 2 ^ 31 ∧
    (blkio_delta wrapping_ios_blkio zero_blkio).rd_ticks = 2 ^ 31 ∧
    (blkio_delta wrapping_ios_blkio zero_blkio).wr_ticks = 2 ^ 31 ∧
    (partition_stats 1000 wrapping_ios_blkio zero_blkio).n_ios = 0 ∧
    (partition_stats 1000 wrapping_ios_blkio zero_blkio).n_ticks = 0 ∧
    (partition_stats 1000 wrapping_ios_blkio zero_blkio).n_ios ≠
      ((blkio_delta wrapping_ios_blkio zero_blkio).rd_ios : ℚ)
        + ((blkio_delta wrapping_ios_blkio zero_blkio).wr_ios : ℚ) ∧
    (partition_stats 1000 wrapping_ios_blkio zero_blkio).n_ticks ≠
      ((blkio_delta wrapping_ios_blkio zero_blkio).rd_ticks : ℚ)
        + ((blkio_delta wrapping_ios_blkio zero_blkio).wr_ticks : ℚ) ∧
    (partition_stats 1000 wrapping_ios_blkio zero_blkio).size = 0 ∧
    (partition_stats 1000 wrapping_ios_blkio zero_blkio).wait = 0 ∧
    (partition_stats 1000 wrapping_ios_blkio zero_blkio).svc_t = 0 := by
  have h1 : (blkio_delta wrapping_ios_blkio zero_blkio).rd_ios = 2 ^ 31 := by decide
  have h2 : (blkio_delta wrapping_ios_blkio zero_blkio).wr_ios = 2 ^ 31 := by decide
  have h3 : (blkio_delta wrapping_ios_blkio zero_blkio).rd_ticks = 2 ^ 31 := by decide
  have h4 : (blkio_delta wrapping_ios_blkio zero_blkio).wr_ticks = 2 ^ 31 := by decide
  have ha : add32 (blkio_delta wrapping_ios_blkio zero_blkio).rd_ios
      (blkio_delta wrapping_ios_blkio zero_blkio).wr_ios = 0 := by decide
  have hb : add32 (blkio_delta wrapping_ios_blkio zero_blkio).rd_ticks
      (blkio_delta wrapping_ios_blkio zero_blkio).wr_ticks = 0 := by decide
  have e1 : (partition_stats 1000 wrapping_ios_blkio zero_blkio).n_ios = 0 := by
    show ((add32 _ _ : Nat) : ℚ) = 0
    rw [ha]; norm_num
  have e2 : (partition_stats 1000 wrapping_ios_blkio zero_blkio).n_ticks = 0 := by
    show ((add32 _ _ : Nat) : ℚ) = 0
    rw [hb]; norm_num
  refine ⟨h1, h2, h3, h4, e1, e2, ?_, ?_, ?_, ?_, ?_⟩
  · rw [e1, h1, h2]; norm_num
  · rw [e2, h3, h4]; norm_num
  · simp only [partition_stats, partition_stats_div, ha]; norm_num
  · simp only [partition_stats, partition_stats_div, ha]; norm_num
  · simp only [partition_stats, partition_stats_div, ha]; norm_num

/-- C18: in 64-bit wrapping arithmetic the tick total from which
`print_partition_stats` derives the elapsed time equals the total that
`print_cpu_stats` divides by (its `total` times 100), and `deltams` is
`1000 * total / ncpu / HZ`. -/
theorem C18_tick_totals_agree (ncpu HZ : Nat) (c o : cpu_info) :
    sub64 (add64 (add64 (add64 c.user c.system) c.idle) c.iowait)
        (add64 (add64 (add64 o.user o.system) o.idle) o.iowait)
      = add64 (add64 (add64 (sub64 c.user o.user) (sub64 c.system o.system))
          (sub64 c.idle o.idle)) (sub64 c.iowait o.iowait) ∧
    cpu_total (cpu_delta c o) =
      ((add64 (add64 (add64 (sub64 c.user o.user) (sub64 c.system o.system))
          (sub64 c.idle o.idle)) (sub64 c.iowait o.iowait) : Nat) : ℚ) / 100 ∧
    cpu_total (cpu_delta c o) * 100 =
      ((sub64 (add64 (add64 (add64 c.user c.system) c.idle) c.iowait)
        (add64 (add64 (add64 o.user o.system) o.idle) o.iowait) : Nat) : ℚ) ∧
    deltams ncpu HZ c o = 1000 * (cpu_total (cpu_delta c o) * 100) / (ncpu : ℚ) / (HZ : ℚ) ∧
    deltams ncpu HZ c o =
      1000 * ((add64 (add64 (add64 (sub64 c.user o.user) (sub64 c.system o.system))
          (sub64 c.idle o.idle)) (sub64 c.iowait o.iowait) : Nat) : ℚ)
        / (ncpu : ℚ) / (HZ : ℚ) := by
  have h := sub64_sum_eq_sum_sub64 c.user c.system c.idle c.iowait
    o.user o.system o.idle o.iowait
  have ht : cpu_total (cpu_delta c o) * 100 =
      ((sub64 (add64 (add64 (add64 c.user c.system) c.idle) c.iowait)
        (add64 (add64 (add64 o.user o.system) o.idle) o.iowait) : Nat) : ℚ) := by
    rw [h]
    simp only [cpu_total, cpu_delta]
    norm_num
  refine ⟨h, rfl, ht, ?_, ?_⟩
  · rw [ht]
    rfl
  · rw [← h]
    rfl

/-- C19: when every current counter is the previous one plus an increment,
reduced modulo `2^32` (modulo `2^64` for the two sector counters), and the
increment is below the modulus, the record of differences computed by
`print_partition_stats` is exactly the record of increments. -/
theorem C19_wraparound_deltas (n o d : blkio_info)
    (h1 : d.rd_ios < 2 ^ 32) (h2 : d.rd_merges < 2 ^ 32) (h3 : d.rd_sectors < 2 ^ 64)
    (h4 : d.rd_ticks < 2 ^ 32) (h5 : d.wr_ios < 2 ^ 32) (h6 : d.wr_merges < 2 ^ 32)
    (h7 : d.wr_sectors < 2 ^ 64) (h8 : d.wr_ticks < 2 ^ 32) (h9 : d.ticks < 2 ^ 32)
    (h10 : d.aveq < 2 ^ 32)
    (e1 : n.rd_ios = (o.rd_ios + d.rd_ios) % 2 ^ 32)
    (e2 : n.rd_merges = (o.rd_merges + d.rd_merges) % 2 ^ 32)
    (e3 : n.rd_sectors = (o.rd_sectors + d.rd_sectors) % 2 ^ 64)
    (e4 : n.rd_ticks = (o.rd_ticks + d.rd_ticks) % 2 ^ 32)
    (e5 : n.wr_ios = (o.wr_ios + d.wr_ios) % 2 ^ 32)
    (e6 : n.wr_merges = (o.wr_merges + d.wr_merges) % 2 ^ 32)
    (e7 : n.wr_sectors = (o.wr_sectors + d.wr_sectors) % 2 ^ 64)
    (e8 : n.wr_ticks = (o.wr_ticks + d.wr_ticks) % 2 ^ 32)
    (e9 : n.ticks = (o.ticks + d.ticks) % 2 ^ 32)
    (e10 : n.aveq = (o.aveq + d.aveq) % 2 ^ 32) :
    blkio_delta n o = d ∧ ∀ dms : ℚ, (partition_stats dms n o).blkio = d := by
  have h : blkio_delta n o = d := by
    unfold blkio_delta
    rw [e1, e2, e3, e4, e5, e6, e7, e8, e9, e10, sub32_wrapped _ _ h1, sub32_wrapped _ _ h2,
      sub64_wrapped _ _ h3, sub32_wrapped _ _ h4, sub32_wrapped _ _ h5, sub32_wrapped _ _ h6,
      sub64_wrapped _ _ h7, sub32_wrapped _ _ h8, sub32_wrapped _ _ h9, sub32_wrapped _ _ h10]
  exact ⟨h, fun _ => h⟩

/-- C19 witness: every counter at the top of its range advances by 5 and wraps
to 4; the differences are 5. -/
theorem C19_wraparound_deltas_witness :
    blkio_delta (const_blkio 4) top_blkio = const_blkio 5 :=
  (C19_wraparound_deltas (const_blkio 4) top_blkio (const_blkio 5)
    (by decide) (by decide) (by decide) (by decide) (by decide) (by decide) (by decide)
    (by decide) (by decide) (by decide) (by decide) (by decide) (by decide) (by decide)
    (by decide) (by decide) (by decide) (by decide) (by decide) (by decide)).1


end Iostat
